import Mathlib

/-!
# Verification of the NDI-to-OMT frame-forwarding pipeline

Shallow embedding of `src/C++/ndi2omt/ndi_to_omt_converter.cpp`:
the compressed-packet validation, NAL start-code classification,
envelope building, capture/forward loop and telemetry logic, together
with theorems settling the specification claims about them.

Bytes are modelled as `Nat` (values < 256 in practice), payloads as
`List Nat`, and the external sink's `omt_send` return value as an `Int`
input supplied to each loop iteration.  Each telemetry counter is
modelled as the unbounded `Nat` total of the increments the code
performs on it; the C++ stores that counter in a 32-bit
`std::atomic<int>`, whose atomic increments wrap modulo 2^32, so the
value the program actually holds and prints is the two's-complement
reduction `int32val` of the total.
-/

namespace NdiOmt

/-- A payload byte. -/
abbrev Byte := Nat

/-- The compressed-H.264 FourCC tag `NDIlib_compressed_FourCC_type_H264`
from the external capture SDK: ASCII bytes h,2,6,4 packed little-endian. -/
def NDIlib_compressed_FourCC_type_H264 : Nat := 0x34363268

/-- The keyframe bit `NDIlib_compressed_packet_flags_keyframe` of the
container header's flags field (external SDK constant, value 1). -/
def NDIlib_compressed_packet_flags_keyframe : Nat := 1

/-- Modelled from the spec: the Compressed Packet Header is a fixed-size
wire struct (a version field, a 4-byte codec-identifier tag, a flags
field, plus timing/size fields of the external SDK's
`NDIlib_compressed_packet_t`); its total size is 44 bytes. -/
def packetHeaderSize : Nat := 44

/-- Little-endian 32-bit read at byte offset `off` (out-of-range bytes read
as 0; the code only reads in range, guarded by the size check). -/
def le32 (bs : List Byte) (off : Nat) : Nat :=
  bs.getD off 0 + 256 * bs.getD (off + 1) 0 + 65536 * bs.getD (off + 2) 0 +
    16777216 * bs.getD (off + 3) 0

/-- Modelled from the spec: the header's `version` field (first 32-bit word
of the wire struct). -/
def packetVersion (bs : List Byte) : Nat := le32 bs 0

/-- Modelled from the spec: the header's 4-byte codec-identifier tag
(`packet->fourCC`), the second 32-bit word of the wire struct. -/
def packetFourCC (bs : List Byte) : Nat := le32 bs 4

/-- Modelled from the spec: the header's `flags` field, whose keyframe bit
is tested with a bitwise AND (32-bit word at byte offset 32 of the wire
struct). -/
def packetFlags (bs : List Byte) : Nat := le32 bs 32

/-- The classification the byte scan produces (`frame_type` strings in the
code: IDR (I-frame), P-frame, SPS, PPS, NAL type n, Unknown). -/
inductive FrameType where
  | IDR
  | PFrame
  | SPS
  | PPS
  | NalType (n : Nat)
  | Unknown
deriving DecidableEq

/-- Map the low 5 bits of the byte after a start code to a frame type
(`nal_type == 5 / 1 / 7 / 8 / other` in the code). -/
def nalMap (b : Byte) : FrameType :=
  let t := b % 32
  if t = 5 then .IDR
  else if t = 1 then .PFrame
  else if t = 7 then .SPS
  else if t = 8 then .PPS
  else .NalType t

/-- The code's 4-byte start-code test at loop index `i`:
`i >= 3 && d[i-3] == 0 && d[i-2] == 0 && d[i-1] == 0 && d[i] == 1`. -/
def is4Marker (d : List Byte) (i : Nat) : Bool :=
  decide (3 ≤ i) && (d.getD (i - 3) 0 == 0) && (d.getD (i - 2) 0 == 0) &&
    (d.getD (i - 1) 0 == 0) && (d.getD i 0 == 1)

/-- The code's 3-byte start-code test at loop index `i`:
`i >= 2 && d[i-2] == 0 && d[i-1] == 0 && d[i] == 1`. -/
def is3Marker (d : List Byte) (i : Nat) : Bool :=
  decide (2 ≤ i) && (d.getD (i - 2) 0 == 0) && (d.getD (i - 1) 0 == 0) &&
    (d.getD i 0 == 1)

/-- The frame type read after a start code ending at index `i`: the byte at
`i+1` if it exists (`i + 1 < h264_size`), else the scan leaves `frame_type`
at Unknown. -/
def nalAfterEnd (d : List Byte) (i : Nat) : FrameType :=
  if i + 1 < d.length then nalMap (d.getD (i + 1) 0) else .Unknown

/-- The scan loop body over the remaining loop indices: at each index the
code tests the 4-byte start code first, then the 3-byte one, and breaks on
the first hit, returning (`has_start_codes`, `frame_type`). -/
def scanLoop (d : List Byte) : List Nat → Bool × FrameType
  | [] => (false, .Unknown)
  | i :: rest =>
    if is4Marker d i then (true, nalAfterEnd d i)
    else if is3Marker d i then (true, nalAfterEnd d i)
    else scanLoop d rest

/-- The NAL/unit classifier of `handle_compressed_frame`: scan loop indices
`0 ≤ i < min(h264_size, 32)`. -/
def classifyH264 (d : List Byte) : Bool × FrameType :=
  scanLoop d (List.range (min d.length 32))

/-- Modelled from the spec: the scan window is the first
min(32, span length) bytes. -/
def specWindow (d : List Byte) : Nat := min 32 d.length

/-- Modelled from the spec: a 4-byte start marker `00 00 00 01` begins at
position `p` entirely inside the scan window. -/
def marker4At (d : List Byte) (p : Nat) : Bool :=
  decide (p + 3 < specWindow d) && (d.getD p 0 == 0) && (d.getD (p + 1) 0 == 0) &&
    (d.getD (p + 2) 0 == 0) && (d.getD (p + 3) 0 == 1)

/-- Modelled from the spec: a 3-byte start marker `00 00 01` begins at
position `p` entirely inside the scan window. -/
def marker3At (d : List Byte) (p : Nat) : Bool :=
  decide (p + 2 < specWindow d) && (d.getD p 0 == 0) && (d.getD (p + 1) 0 == 0) &&
    (d.getD (p + 2) 0 == 1)

/-- Modelled from the spec: find the first start marker by start position
(at a given position a 4-byte and a 3-byte marker are mutually exclusive,
so the order of the two tests is immaterial); returns the start position
and the marker length. -/
def specScanFrom (d : List Byte) : List Nat → Option (Nat × Nat)
  | [] => none
  | p :: ps =>
    if marker4At d p then some (p, 4)
    else if marker3At d p then some (p, 3)
    else specScanFrom d ps

/-- Modelled from the spec (§4.2): scan the first min(32, span length)
bytes for a 3- or 4-byte start marker; on the first marker found read the
byte immediately after it and map its low 5 bits; with no marker in the
window the classification is Unknown (likewise when the marker ends the
span, so that no byte follows it). -/
def specClassify (d : List Byte) : FrameType :=
  match specScanFrom d (List.range (specWindow d)) with
  | none => .Unknown
  | some (p, len) =>
    if p + len < d.length then nalMap (d.getD (p + len) 0) else .Unknown

/-- The telemetry counters of `NDIToOMTConverter` (declaration order as in
the source; the sampled connection count as `Int`).  Each counter field
holds the unbounded total of the increments performed on it; the C++
`std::atomic<int>` cell storing the counter holds `int32val` of that
total, because atomic integer increments wrap modulo 2^32. -/
structure Stats where
  frames_received : Nat
  frames_sent : Nat
  bytes_received : Nat
  bytes_sent : Nat
  connections : Int
  keyframes_sent : Nat
  pframes_sent : Nat
  frames_dropped : Nat
deriving DecidableEq

/-- All counters start at zero. -/
def Stats.start : Stats := ⟨0, 0, 0, 0, 0, 0, 0, 0⟩

/-- The value a C++ 32-bit `std::atomic<int>` counter holds after a total
of `n` units have been added to it starting from zero: atomic `fetch_add`
wraps modulo 2^32 and the cell is read back as a signed two's-complement
integer. -/
def int32val (n : Nat) : Int :=
  if n % 4294967296 < 2147483648 then ((n % 4294967296 : Nat) : Int)
  else ((n % 4294967296 : Nat) : Int) - 4294967296

/-- The mutable stream properties (`current_width/height/fps_n/fps_d`). -/
structure StreamGeometry where
  width : Int
  height : Int
  fpsN : Int
  fpsD : Int
deriving DecidableEq

/-- Initial stream properties: 0×0 at 30/1 fps. -/
def StreamGeometry.start : StreamGeometry := ⟨0, 0, 30, 1⟩

/-- The OMT flag value `OMTVideoFlags_None` (the only flag value the code
ever assigns). -/
def OMTVideoFlags_None : Nat := 0

/-- The outbound envelope fields `send_compressed_to_omt` fills in
(`OMTMediaFrame`; the constant fields Type/Codec/ColorSpace/Timestamp set
once before the loop are omitted, they are never changed). The float
`AspectRatio` field is modelled as an exact rational (`Rat` division by
zero gives 0 where the C++ float division would give a non-finite value). -/
structure OMTMediaFrame where
  Width : Int
  Height : Int
  FrameRateN : Int
  FrameRateD : Int
  Aspect : ℚ
  Data : List Byte
  DataLength : Nat
  Flags : Nat
deriving DecidableEq

/-- Result of `send_compressed_to_omt`: its boolean return, the updated
counters, and the envelope handed to `omt_send`. -/
structure SendOutcome where
  ok : Bool
  stats : Stats
  frame : OMTMediaFrame
deriving DecidableEq

/-- `send_compressed_to_omt`: build the envelope from the current stream
geometry and the container keyframe flag, bump the keyframe or P-frame
counter, call `omt_send` (its integer result is the input `sendResult`),
and update the counters according to the sign of the result. -/
def send_compressed_to_omt (g : StreamGeometry) (st : Stats) (h264 : List Byte)
    (is_keyframe : Bool) (sendResult : Int) : SendOutcome :=
  let f : OMTMediaFrame :=
    { Width := g.width, Height := g.height, FrameRateN := g.fpsN,
      FrameRateD := g.fpsD, Aspect := (g.width : ℚ) / (g.height : ℚ),
      Data := h264, DataLength := h264.length,
      Flags := if is_keyframe then OMTVideoFlags_None else OMTVideoFlags_None }
  let st1 :=
    if is_keyframe then { st with keyframes_sent := st.keyframes_sent + 1 }
    else { st with pframes_sent := st.pframes_sent + 1 }
  if 0 ≤ sendResult then
    { ok := true
      stats :=
        { st1 with
          frames_sent := st1.frames_sent + 1
          bytes_sent := st1.bytes_sent + h264.length
          bytes_received := st1.bytes_received + h264.length }
      frame := f }
  else
    { ok := false
      stats := { st1 with frames_dropped := st1.frames_dropped + 1 }
      frame := f }

/-- The distinct return sites of `handle_compressed_frame` (the C++ merges
them into a `bool`; the tag records which site produced it). -/
inductive CompressedOutcome where
  | emptyPayload
  | tooSmall
  | wrongCodec
  | notCompressed
  | forwarded (so : SendOutcome)
deriving DecidableEq

/-- The boolean `handle_compressed_frame` actually returns. -/
def CompressedOutcome.toBool : CompressedOutcome → Bool
  | .forwarded _ => true
  | _ => false

/-- The delivered video frame (`NDIlib_video_frame_v2_t` fields the code
reads); a null/empty `p_data` is modelled as the empty payload. -/
structure NDIVideoFrame where
  fourCC : Nat
  xres : Int
  yres : Int
  frameRateN : Int
  frameRateD : Int
  data : List Byte
deriving DecidableEq

/-- `handle_compressed_frame`: reject empty payloads; for the compressed
FourCC check the size against the header, check the header's codec tag,
take the payload after the header, read the container keyframe bit, run
the (diagnostic-only) byte-scan classification, and send; otherwise the
frame is not compressed H.264. -/
def handle_compressed_frame (g : StreamGeometry) (st : Stats)
    (fr : NDIVideoFrame) (sendResult : Int) : CompressedOutcome × Stats :=
  if fr.data.length = 0 then (.emptyPayload, st)
  else if fr.fourCC = NDIlib_compressed_FourCC_type_H264 then
    if fr.data.length < packetHeaderSize then (.tooSmall, st)
    else if packetFourCC fr.data ≠ NDIlib_compressed_FourCC_type_H264 then
      (.wrongCodec, st)
    else
      let h264 := fr.data.drop packetHeaderSize
      let is_keyframe : Bool :=
        (packetFlags fr.data &&& NDIlib_compressed_packet_flags_keyframe) != 0
      -- `has_start_codes` / `frame_type` are computed for diagnostics only
      let out := send_compressed_to_omt g st h264 is_keyframe sendResult
      (.forwarded out, out.stats)
  else (.notCompressed, st)

/-- The stream-property update at the top of `handle_video_frame`: replace
the stored geometry whenever any field differs. -/
def update_geometry (g : StreamGeometry) (fr : NDIVideoFrame) : StreamGeometry :=
  if g.width ≠ fr.xres ∨ g.height ≠ fr.yres ∨ g.fpsN ≠ fr.frameRateN ∨
      g.fpsD ≠ fr.frameRateD then
    ⟨fr.xres, fr.yres, fr.frameRateN, fr.frameRateD⟩
  else g

/-- `handle_video_frame`: count the frame as received, update the stream
geometry, then attempt compressed handling (a `false` result only logs a
warning). -/
def handle_video_frame (g : StreamGeometry) (st : Stats) (fr : NDIVideoFrame)
    (sendResult : Int) : CompressedOutcome × StreamGeometry × Stats :=
  let st1 := { st with frames_received := st.frames_received + 1 }
  let g1 := update_geometry g fr
  let (out, st2) := handle_compressed_frame g1 st1 fr sendResult
  (out, g1, st2)

/-- One event delivered by `NDIlib_recv_capture_v3`; a video event carries
the frame and the `omt_send` result the sink would return for it. -/
inductive CaptureEvent where
  | video (fr : NDIVideoFrame) (sendResult : Int)
  | audio
  | metadata
  | noFrame
  | statusChange
deriving DecidableEq

/-- Input of one loop iteration: the captured event, plus the sampled
connection count when the once-per-second check fires. -/
structure LoopInput where
  event : CaptureEvent
  connSample : Option Int
deriving DecidableEq

/-- Externally visible calls a loop iteration makes: the `omt_send` call
and the `NDIlib_recv_free_*` ownership releases. -/
inductive ExtCall where
  | omtSendCall (f : OMTMediaFrame)
  | freeVideo
  | freeAudio
  | freeMetadata
deriving DecidableEq

/-- Whether an external call releases a captured frame's ownership token. -/
def isRelease : ExtCall → Bool
  | .freeVideo => true
  | .freeAudio => true
  | .freeMetadata => true
  | _ => false

/-- Whether an external call is the sink send. -/
def isSendCall : ExtCall → Bool
  | .omtSendCall _ => true
  | _ => false

/-- Whether an event delivers a capture frame whose ownership token must be
released. -/
def deliversFrame : CaptureEvent → Bool
  | .video _ _ => true
  | .audio => true
  | .metadata => true
  | _ => false

/-- The `omt_send` call made on the forwarding path (none on rejection). -/
def sendCallsOf : CompressedOutcome → List ExtCall
  | .forwarded so => [.omtSendCall so.frame]
  | _ => []

/-- The converter's mutable state: stream geometry and counters. -/
structure ConvState where
  geo : StreamGeometry
  stats : Stats
deriving DecidableEq

/-- Initial converter state. -/
def startState : ConvState := ⟨StreamGeometry.start, Stats.start⟩

/-- The periodic connection-count sampling (`connections =
omt_send_connections(...)`) when the one-second check fires. -/
def applyConn (s : ConvState) : Option Int → ConvState
  | some n => { s with stats := { s.stats with connections := n } }
  | none => s

/-- One iteration of the `run` loop: dispatch on the captured event kind,
then the periodic connection sampling; also returns the external calls the
iteration makes, in order. -/
def loop_iteration (s : ConvState) (inp : LoopInput) : ConvState × List ExtCall :=
  let (s1, calls) :=
    match inp.event with
    | .video fr r =>
      let (out, g, st) := handle_video_frame s.geo s.stats fr r
      (⟨g, st⟩, sendCallsOf out ++ [.freeVideo])
    | .audio => (s, [.freeAudio])
    | .metadata => (s, [.freeMetadata])
    | .noFrame => (s, [])
    | .statusChange => (s, [])
  (applyConn s1 inp.connSample, calls)

/-- The capture/forward loop over a finite trace of delivered events. -/
def run_loop : ConvState → List LoopInput → ConvState
  | s, [] => s
  | s, inp :: rest => run_loop (loop_iteration s inp).1 rest

/-- The only-keyframes anomaly check in `print_statistics`:
`frames_sent > 10 && pframes_sent == 0`. -/
def only_keyframes_warning (st : Stats) : Bool :=
  decide (10 < st.frames_sent) && (st.pframes_sent == 0)

/-- A scan-loop index hits a start code: the 4-byte test or the 3-byte test
fires (used to characterise the loop's first hit). -/
def endHit (d : List Byte) (i : Nat) : Bool :=
  is4Marker d i || is3Marker d i

/-- A start marker (of either length) begins at position `p` inside the
scan window (used to characterise the spec-side scan's first hit). -/
def startHit (d : List Byte) (p : Nat) : Bool :=
  marker4At d p || marker3At d p

/-- The envelope handed to `omt_send`, when the outcome reached the send
path. -/
def CompressedOutcome.sentFrame : CompressedOutcome → Option OMTMediaFrame
  | .forwarded so => some so.frame
  | _ => none

/-- The outcome of `handle_video_frame` (first component of its result). -/
def videoOutcome (s : ConvState) (fr : NDIVideoFrame) (r : Int) :
    CompressedOutcome :=
  (handle_video_frame s.geo s.stats fr r).1

/-- The success rate `print_statistics` reports: sent/received, 0 when
nothing was received (the float computation is modelled exactly in ℚ;
both counters convert to float exactly in any realistic run). -/
def successRate (st : Stats) : ℚ :=
  if 0 < st.frames_received then
    (st.frames_sent : ℚ) / (st.frames_received : ℚ)
  else 0

/-- Pointwise order on the six throughput counters of the claim (the
sampled connection count is not a counter). -/
def Stats.le6 (a b : Stats) : Prop :=
  a.frames_received ≤ b.frames_received ∧ a.frames_sent ≤ b.frames_sent ∧
    a.frames_dropped ≤ b.frames_dropped ∧ a.bytes_received ≤ b.bytes_received ∧
    a.bytes_sent ≤ b.bytes_sent ∧ a.keyframes_sent ≤ b.keyframes_sent ∧
    a.pframes_sent ≤ b.pframes_sent

/-! ### Exact model of the IEEE-754 arithmetic in the drop-rate check

`print_statistics` computes `(float)frames_dropped / frames_received` in
single precision and compares it against the double literal `0.1`.  Both
roundings are modelled exactly: `rndQ 24` (respectively `rndQ 53`) maps a
rational to the value of the nearest binary32 (binary64) float, using
round-to-nearest, ties-to-even (exponent range is unbounded, which is
exact for all values a run of this program can produce). -/

/-- Round a rational to the nearest integer, ties to even. -/
def roundHalfEven (q : ℚ) : ℤ :=
  let n : ℤ := ⌊q⌋
  let f : ℚ := q - (n : ℚ)
  if f < 1 / 2 then n
  else if 1 / 2 < f then n + 1
  else if n % 2 = 0 then n else n + 1

/-- Integer power of two in ℚ. -/
def pow2Q (e : ℤ) : ℚ := (2 : ℚ) ^ e

/-- The binade exponent of a positive rational: the greatest `e` with
`2 ^ e ≤ q`. -/
def qlog2 (q : ℚ) : ℤ :=
  let e0 : ℤ := (Nat.log2 q.num.toNat : ℤ) - (Nat.log2 q.den : ℤ)
  if pow2Q e0 ≤ q then e0 else e0 - 1

/-- Round a positive rational to a floating-point significand of `prec`
bits (round to nearest, ties to even); non-positive input (only 0 arises
here) maps to 0. -/
def rndQ (prec : Nat) (q : ℚ) : ℚ :=
  if q ≤ 0 then 0
  else
    ((roundHalfEven (q * pow2Q ((prec : ℤ) - 1 - qlog2 q)) : ℤ) : ℚ) *
      pow2Q (qlog2 q + 1 - (prec : ℤ))

/-- The value of the C++ double literal `0.1`. -/
def doubleTenth : ℚ := rndQ 53 (1 / 10)

/-- The single-precision value of
`(float)frames_dropped / frames_received`: both counters converted to
float, then divided in float. -/
def drop_rate (st : Stats) : ℚ :=
  rndQ 24 (rndQ 24 (st.frames_dropped : ℚ) / rndQ 24 (st.frames_received : ℚ))

/-- The high-drop-rate anomaly check in `print_statistics`:
`frames_received > 10 && drop_rate > 0.1` (the float compare promotes
`drop_rate` to double exactly). -/
def high_drop_warning (st : Stats) : Bool :=
  decide (10 < st.frames_received) && decide (doubleTenth < drop_rate st)

/-! ### Concrete inputs for witnesses and counterexamples -/

/-- A well-formed 44-byte container header: version 3, fourCC h264,
the given flags word, all other fields zero. -/
def hdrBytes (flags : Nat) : List Byte :=
  [3, 0, 0, 0, 104, 50, 54, 52] ++ List.replicate 24 0 ++ [flags, 0, 0, 0] ++
    List.replicate 8 0

/-- A compressed video frame whose 4-byte payload is smaller than the
container header (scenario: `TooSmall`). -/
def frTooSmall : NDIVideoFrame :=
  ⟨NDIlib_compressed_FourCC_type_H264, 1920, 1080, 30, 1, [0, 0, 0, 1]⟩

/-- A well-formed compressed video frame: header with the keyframe flag
set and an empty encoded payload. -/
def frKey : NDIVideoFrame :=
  ⟨NDIlib_compressed_FourCC_type_H264, 1920, 1080, 30, 1, hdrBytes 1⟩

/-- A well-formed compressed video frame reporting 1280×0 geometry. -/
def frZeroH : NDIVideoFrame :=
  ⟨NDIlib_compressed_FourCC_type_H264, 1280, 0, 30, 1, hdrBytes 1⟩

/-- A 1920×1080 stream geometry (the state prior to `frZeroH`). -/
def geoHD : StreamGeometry := ⟨1920, 1080, 30, 1⟩

/-- A 20-frame trace: 18 well-formed frames whose send returns 0, then 2
whose send returns −1, leaving received = 20, dropped = 2. -/
def cexTrace : List LoopInput :=
  List.replicate 18 (⟨.video frKey 0, none⟩ : LoopInput) ++
    List.replicate 2 (⟨.video frKey (-1), none⟩ : LoopInput)

/-- A well-formed compressed keyframe carrying a 2^30-byte encoded
payload (a legal `data_size_in_bytes`; the payload bytes are zeros,
which is irrelevant to the counters). -/
def frBig : NDIVideoFrame :=
  ⟨NDIlib_compressed_FourCC_type_H264, 1920, 1080, 30, 1,
    hdrBytes 1 ++ List.replicate 1073741824 0⟩

/-- A trace of two such frames, both sent successfully: 2^31 bytes moved
in total, which overflows a 32-bit bytes counter. -/
def wrapTrace : List LoopInput :=
  [⟨.video frBig 1, none⟩, ⟨.video frBig 1, none⟩]

/-! ### Shared helper lemmas -/

/-- Counter update of `send_compressed_to_omt`, in closed form: the
keyframe/P-frame counter is bumped per the container flag before the send;
a non-negative send result bumps the sent and byte counters, a negative
one bumps the dropped counter. -/
theorem send_stats_spec (g : StreamGeometry) (st : Stats) (h264 : List Byte)
    (kf : Bool) (r : Int) :
    (send_compressed_to_omt g st h264 kf r).stats =
      { frames_received := st.frames_received
        frames_sent := st.frames_sent + if 0 ≤ r then 1 else 0
        bytes_received := st.bytes_received + if 0 ≤ r then h264.length else 0
        bytes_sent := st.bytes_sent + if 0 ≤ r then h264.length else 0
        connections := st.connections
        keyframes_sent := st.keyframes_sent + if kf then 1 else 0
        pframes_sent := st.pframes_sent + if kf then 0 else 1
        frames_dropped := st.frames_dropped + if 0 ≤ r then 0 else 1 } := by
  cases kf <;> by_cases hr : 0 ≤ r <;> simp [send_compressed_to_omt, hr]

/-- The boolean `send_compressed_to_omt` returns is the sign test of the
`omt_send` result. -/
theorem send_ok_spec (g : StreamGeometry) (st : Stats) (h264 : List Byte)
    (kf : Bool) (r : Int) :
    (send_compressed_to_omt g st h264 kf r).ok = decide (0 ≤ r) := by
  by_cases hr : 0 ≤ r <;> simp [send_compressed_to_omt, hr]

/-- The compressed handler either leaves the counters unchanged (on its
reject paths) or hands them to the send path. -/
theorem handle_compressed_cases (g : StreamGeometry) (st : Stats)
    (fr : NDIVideoFrame) (r : Int) :
    (handle_compressed_frame g st fr r).2 = st ∨
      ∃ kf, (handle_compressed_frame g st fr r).2 =
        (send_compressed_to_omt g st (fr.data.drop packetHeaderSize) kf r).stats := by
  unfold handle_compressed_frame
  split
  · exact Or.inl rfl
  · split
    · split
      · exact Or.inl rfl
      · split
        · exact Or.inl rfl
        · exact Or.inr ⟨_, rfl⟩
    · exact Or.inl rfl

/-! ### Claim theorems -/

/-- Claim C1 (code bug): `send_compressed_to_omt` selects the branch by the
container's keyframe flag, but both branches assign the same envelope flag
value `OMTVideoFlags_None`, so an envelope built for a keyframe carries the
very same keyframe/delta indicator as one built for a delta frame — the
claimed distinct indicator values do not exist (the code's own comments
call the flag critical for the decoder and question the duplicate value). -/
theorem envelope_flag_collapse (g : StreamGeometry) (st : Stats)
    (h264 : List Byte) (r r' : Int) :
    (send_compressed_to_omt g st h264 true r).frame.Flags =
        (send_compressed_to_omt g st h264 false r').frame.Flags ∧
      (send_compressed_to_omt g st h264 true r).frame.Flags =
        OMTVideoFlags_None := by
  by_cases hr : 0 ≤ r <;> by_cases hr' : 0 ≤ r' <;>
    simp [send_compressed_to_omt, hr, hr']

/-- Claim C3 (amended): the keyframe or delta counter is bumped per the
container flag before the send, regardless of the send result; a
non-negative result additionally bumps the sent-frame and both byte
counters; a negative result additionally bumps only the dropped counter;
and the loop continues with the next event in every case. -/
theorem send_result_counter_update (g : StreamGeometry) (st : Stats)
    (h264 : List Byte) (kf : Bool) (r : Int) :
    (send_compressed_to_omt g st h264 kf r).stats.keyframes_sent =
        st.keyframes_sent + (if kf then 1 else 0) ∧
      (send_compressed_to_omt g st h264 kf r).stats.pframes_sent =
        st.pframes_sent + (if kf then 0 else 1) ∧
      (send_compressed_to_omt g st h264 kf r).stats.frames_sent =
        st.frames_sent + (if 0 ≤ r then 1 else 0) ∧
      (send_compressed_to_omt g st h264 kf r).stats.bytes_sent =
        st.bytes_sent + (if 0 ≤ r then h264.length else 0) ∧
      (send_compressed_to_omt g st h264 kf r).stats.bytes_received =
        st.bytes_received + (if 0 ≤ r then h264.length else 0) ∧
      (send_compressed_to_omt g st h264 kf r).stats.frames_dropped =
        st.frames_dropped + (if 0 ≤ r then 0 else 1) ∧
      (send_compressed_to_omt g st h264 kf r).stats.frames_received =
        st.frames_received ∧
      (send_compressed_to_omt g st h264 kf r).ok = decide (0 ≤ r) ∧
      ∀ (s : ConvState) (inp : LoopInput) (rest : List LoopInput),
        run_loop s (inp :: rest) = run_loop (loop_iteration s inp).1 rest := by
  rw [send_stats_spec, send_ok_spec]
  exact ⟨rfl, rfl, rfl, rfl, rfl, rfl, rfl, rfl, fun s inp rest => rfl⟩

/-- Claim C3 (counterexample): a well-formed keyframe whose send fails
(result −1) leaves the keyframe counter incremented — the claim's
"negative result increments only the dropped-frame counter, no
sent/keyframe/delta counter changes" is false on the code. -/
theorem keyframe_counter_bumped_on_failed_send :
    (handle_video_frame StreamGeometry.start Stats.start frKey
        (-1)).2.2.keyframes_sent = 1 ∧
      (handle_video_frame StreamGeometry.start Stats.start frKey
        (-1)).2.2.frames_dropped = 1 ∧
      (handle_video_frame StreamGeometry.start Stats.start frKey
        (-1)).2.2.frames_sent = 0 := by
  decide

/-- Claim C4 (code bug): a video frame reporting height 0 is accepted by
the stream-property update without any validation — the prior geometry is
replaced, not kept, and the envelope is built with the zero height feeding
the aspect-ratio division. -/
theorem zero_height_geometry_accepted :
    update_geometry geoHD frZeroH = ⟨1280, 0, 30, 1⟩ ∧
      (handle_video_frame geoHD Stats.start frZeroH 200).2.1.height = 0 ∧
      ((handle_video_frame geoHD Stats.start frZeroH 200).1.sentFrame.map
        OMTMediaFrame.Height) = some 0 ∧
      ((handle_video_frame geoHD Stats.start frZeroH 200).1.sentFrame.map
        OMTMediaFrame.Width) = some 1280 := by
  decide

/-- Claim C9: every loop iteration that delivers a video, audio or
metadata event releases the capture frame's ownership token exactly once —
on the video path after `handle_video_frame` returns (covering all
rejection paths and the failed-send path), on the audio and metadata paths
directly; iterations without a delivered frame release nothing. -/
theorem release_once_per_delivered_frame (s : ConvState) (inp : LoopInput) :
    (loop_iteration s inp).2.countP isRelease =
      if deliversFrame inp.event then 1 else 0 := by
  obtain ⟨ev, c⟩ := inp
  cases ev with
  | video fr r =>
    have h : ∀ out : CompressedOutcome, (sendCallsOf out).countP isRelease = 0 := by
      intro out; cases out <;> simp [sendCallsOf, isRelease]
    simp [loop_iteration, deliversFrame, List.countP_append, h, isRelease]
  | audio => simp [loop_iteration, deliversFrame, isRelease]
  | metadata => simp [loop_iteration, deliversFrame, isRelease]
  | noFrame => simp [loop_iteration, deliversFrame]
  | statusChange => simp [loop_iteration, deliversFrame]

/-- Unfolding of a video-event loop iteration (the `let` destructuring
reduces by structure eta). -/
theorem loop_iteration_video (s : ConvState) (fr : NDIVideoFrame) (r : Int)
    (c : Option Int) :
    loop_iteration s ⟨.video fr r, c⟩ =
      (applyConn ⟨update_geometry s.geo fr,
          (handle_compressed_frame (update_geometry s.geo fr)
            { s.stats with frames_received := s.stats.frames_received + 1 }
            fr r).2⟩ c,
        sendCallsOf ((handle_compressed_frame (update_geometry s.geo fr)
            { s.stats with frames_received := s.stats.frames_received + 1 }
            fr r).1) ++ [.freeVideo]) := rfl

/-- On the two malformed-packet paths the compressed handler returns the
matching reject tag and leaves the counters untouched. -/
theorem handle_compressed_reject (g : StreamGeometry) (st : Stats)
    (fr : NDIVideoFrame) (r : Int)
    (h1 : fr.fourCC = NDIlib_compressed_FourCC_type_H264)
    (h2 : fr.data.length ≠ 0)
    (h3 : fr.data.length < packetHeaderSize ∨
      packetFourCC fr.data ≠ NDIlib_compressed_FourCC_type_H264) :
    handle_compressed_frame g st fr r =
      ((if fr.data.length < packetHeaderSize then .tooSmall else .wrongCodec),
        st) := by
  unfold handle_compressed_frame
  rw [if_neg h2, if_pos h1]
  by_cases hlen : fr.data.length < packetHeaderSize
  · rw [if_pos hlen, if_pos hlen]
  · rw [if_neg hlen, if_neg hlen, if_pos (h3.resolve_left hlen)]

/-- Claim C2 (amended): a frame the Validator rejects as `TooSmall` or
`WrongCodec` is never handed to the sink, its ownership token is still
released, and processing continues with the next event — but the
dropped-frame counter is NOT incremented: the only counter that changes is
frames-received (the dropped counter moves only when a sink send returns a
negative result). -/
theorem validator_reject_drops_silently (s : ConvState) (fr : NDIVideoFrame)
    (r : Int)
    (h1 : fr.fourCC = NDIlib_compressed_FourCC_type_H264)
    (h2 : fr.data.length ≠ 0)
    (h3 : fr.data.length < packetHeaderSize ∨
      packetFourCC fr.data ≠ NDIlib_compressed_FourCC_type_H264) :
    (fr.data.length < packetHeaderSize → videoOutcome s fr r = .tooSmall) ∧
      (packetHeaderSize ≤ fr.data.length →
        videoOutcome s fr r = .wrongCodec) ∧
      (loop_iteration s ⟨.video fr r, none⟩).1.stats =
        { s.stats with frames_received := s.stats.frames_received + 1 } ∧
      (loop_iteration s ⟨.video fr r, none⟩).2 = [ExtCall.freeVideo] ∧
      ∀ rest, run_loop s (⟨.video fr r, none⟩ :: rest) =
        run_loop (loop_iteration s ⟨.video fr r, none⟩).1 rest := by
  have key := handle_compressed_reject (update_geometry s.geo fr)
    { s.stats with frames_received := s.stats.frames_received + 1 } fr r h1 h2 h3
  refine ⟨fun hlen => ?_, fun hge => ?_, ?_, ?_, fun rest => rfl⟩
  · simp [videoOutcome, handle_video_frame, key, if_pos hlen]
  · simp [videoOutcome, handle_video_frame, key,
      if_neg (not_lt.mpr hge)]
  · rw [loop_iteration_video, key]
    simp [applyConn]
  · rw [loop_iteration_video, key]
    split <;> simp [sendCallsOf]

/-- Claim C2 (witness): the amended statement at a concrete 4-byte
compressed frame. -/
theorem validator_reject_drops_silently_witness :
    (frTooSmall.data.length < packetHeaderSize →
        videoOutcome startState frTooSmall 200 = .tooSmall) ∧
      (packetHeaderSize ≤ frTooSmall.data.length →
        videoOutcome startState frTooSmall 200 = .wrongCodec) ∧
      (loop_iteration startState ⟨.video frTooSmall 200, none⟩).1.stats =
        { startState.stats with
          frames_received := startState.stats.frames_received + 1 } ∧
      (loop_iteration startState ⟨.video frTooSmall 200, none⟩).2 =
        [ExtCall.freeVideo] ∧
      ∀ rest, run_loop startState (⟨.video frTooSmall 200, none⟩ :: rest) =
        run_loop (loop_iteration startState
          ⟨.video frTooSmall 200, none⟩).1 rest :=
  validator_reject_drops_silently startState frTooSmall 200 (by decide)
    (by decide) (Or.inl (by decide))

/-- Claim C2 (counterexample): a compressed frame with a 4-byte payload is
rejected as `TooSmall` and never sent, yet after the iteration the
dropped-frame counter is still 0, not 1 — the claimed increment does not
happen. -/
theorem rejected_frame_not_counted_dropped :
    (handle_compressed_frame StreamGeometry.start
        { Stats.start with frames_received := 1 } frTooSmall 200).1 =
        .tooSmall ∧
      (run_loop startState
        [⟨.video frTooSmall 200, none⟩]).stats.frames_received = 1 ∧
      (run_loop startState
        [⟨.video frTooSmall 200, none⟩]).stats.frames_dropped = 0 ∧
      (loop_iteration startState
        ⟨.video frTooSmall 200, none⟩).2.countP isSendCall = 0 := by
  decide

/-- Claim C6: a frame the Validator accepts (compressed format tag,
matching codec tag in the header, payload at least as long as the header)
is forwarded with the encoded-unit span equal to the payload bytes after
the header, of length payload length minus header size; a payload of
exactly the header size yields the empty span, which is still forwarded
and which the byte-scan classifies as Unknown (no start code found). -/
theorem validator_span_after_header (g : StreamGeometry) (st : Stats)
    (fr : NDIVideoFrame) (r : Int)
    (h1 : fr.fourCC = NDIlib_compressed_FourCC_type_H264)
    (h2 : packetFourCC fr.data = NDIlib_compressed_FourCC_type_H264)
    (h3 : packetHeaderSize ≤ fr.data.length) :
    ((handle_compressed_frame g st fr r).1.sentFrame.map OMTMediaFrame.Data) =
        some (fr.data.drop packetHeaderSize) ∧
      ((handle_compressed_frame g st fr r).1.sentFrame.map
        OMTMediaFrame.DataLength) =
        some (fr.data.length - packetHeaderSize) ∧
      (handle_compressed_frame g st fr r).1.toBool = true ∧
      (fr.data.length = packetHeaderSize →
        fr.data.drop packetHeaderSize = [] ∧
        classifyH264 (fr.data.drop packetHeaderSize) = (false, .Unknown)) := by
  have hne : fr.data.length ≠ 0 := by
    simp only [packetHeaderSize] at h3
    omega
  have hnl : ¬fr.data.length < packetHeaderSize := not_lt.mpr h3
  unfold handle_compressed_frame
  rw [if_neg hne, if_pos h1, if_neg hnl, if_neg (not_not_intro h2)]
  refine ⟨?_, ?_, ?_, fun he => ?_⟩
  · by_cases hr : 0 ≤ r <;>
      simp [send_compressed_to_omt, hr, CompressedOutcome.sentFrame]
  · by_cases hr : 0 ≤ r <;>
      simp [send_compressed_to_omt, hr, CompressedOutcome.sentFrame,
        List.length_drop]
  · rfl
  · have hdrop : fr.data.drop packetHeaderSize = [] :=
      List.drop_eq_nil_of_le (le_of_eq he)
    rw [hdrop]
    exact ⟨rfl, by decide⟩

/-- Claim C6 (witness): the accepted-frame statement at a concrete frame
whose payload is exactly the 44-byte header. -/
theorem validator_span_after_header_witness :
    ((handle_compressed_frame geoHD Stats.start frKey 200).1.sentFrame.map
        OMTMediaFrame.Data) = some (frKey.data.drop packetHeaderSize) ∧
      ((handle_compressed_frame geoHD Stats.start frKey 200).1.sentFrame.map
        OMTMediaFrame.DataLength) =
        some (frKey.data.length - packetHeaderSize) ∧
      (handle_compressed_frame geoHD Stats.start frKey 200).1.toBool = true ∧
      (frKey.data.length = packetHeaderSize →
        frKey.data.drop packetHeaderSize = [] ∧
        classifyH264 (frKey.data.drop packetHeaderSize) =
          (false, .Unknown)) :=
  validator_span_after_header geoHD Stats.start frKey 200 (by decide)
    (by decide) (by decide)

/-- The compressed handler preserves equality of the two byte counters. -/
theorem handle_compressed_bytes (g : StreamGeometry) (st : Stats)
    (fr : NDIVideoFrame) (r : Int)
    (h : st.bytes_received = st.bytes_sent) :
    (handle_compressed_frame g st fr r).2.bytes_received =
      (handle_compressed_frame g st fr r).2.bytes_sent := by
  rcases handle_compressed_cases g st fr r with hst | ⟨kf, hst⟩
  · rw [hst]; exact h
  · rw [hst, send_stats_spec]
    simp [h]

/-- A loop iteration preserves equality of the two byte counters: they are
only ever incremented together, by the same payload size, on a
non-negative send result. -/
theorem bytes_eq_step (s : ConvState) (inp : LoopInput)
    (h : s.stats.bytes_received = s.stats.bytes_sent) :
    (loop_iteration s inp).1.stats.bytes_received =
      (loop_iteration s inp).1.stats.bytes_sent := by
  obtain ⟨ev, c⟩ := inp
  cases ev with
  | video fr r =>
    rw [loop_iteration_video]
    cases c with
    | none => exact handle_compressed_bytes _ _ _ _ h
    | some n => exact handle_compressed_bytes _ _ _ _ h
  | audio => cases c <;> simpa [loop_iteration, applyConn] using h
  | metadata => cases c <;> simpa [loop_iteration, applyConn] using h
  | noFrame => cases c <;> simpa [loop_iteration, applyConn] using h
  | statusChange => cases c <;> simpa [loop_iteration, applyConn] using h

/-- Claim C10: at every point of every run the bytes-received counter
equals the bytes-sent counter (both move only on a non-negative send, by
the payload size), so the reported inbound and outbound bitrates coincide
for any elapsed time. -/
theorem bytes_in_eq_bytes_out (t : List LoopInput) :
    (run_loop startState t).stats.bytes_received =
        (run_loop startState t).stats.bytes_sent ∧
      ∀ sec : ℚ,
        ((run_loop startState t).stats.bytes_received : ℚ) * 8 /
            (sec * 1000000) =
          ((run_loop startState t).stats.bytes_sent : ℚ) * 8 /
            (sec * 1000000) := by
  have main : ∀ (s : ConvState), s.stats.bytes_received = s.stats.bytes_sent →
      (run_loop s t).stats.bytes_received =
        (run_loop s t).stats.bytes_sent := by
    induction t with
    | nil => intro s h; exact h
    | cons inp rest ih => intro s h; exact ih _ (bytes_eq_step s inp h)
  have h := main startState rfl
  exact ⟨h, fun sec => by rw [h]⟩

/-- `Stats.le6` is reflexive. -/
theorem le6_refl (a : Stats) : Stats.le6 a a := by
  simp [Stats.le6]

/-- `Stats.le6` is transitive. -/
theorem le6_trans {a b c : Stats} (h1 : Stats.le6 a b) (h2 : Stats.le6 b c) :
    Stats.le6 a c := by
  obtain ⟨x1, x2, x3, x4, x5, x6, x7⟩ := h1
  obtain ⟨y1, y2, y3, y4, y5, y6, y7⟩ := h2
  exact ⟨x1.trans y1, x2.trans y2, x3.trans y3, x4.trans y4, x5.trans y5,
    x6.trans y6, x7.trans y7⟩

/-- The send path only increments counters. -/
theorem send_le6 (g : StreamGeometry) (st : Stats) (h264 : List Byte)
    (kf : Bool) (r : Int) :
    Stats.le6 st (send_compressed_to_omt g st h264 kf r).stats := by
  rw [send_stats_spec]
  cases kf <;> by_cases hr : 0 ≤ r <;> simp [Stats.le6, hr]

/-- The compressed handler only increments counters. -/
theorem handle_compressed_le6 (g : StreamGeometry) (st : Stats)
    (fr : NDIVideoFrame) (r : Int) :
    Stats.le6 st (handle_compressed_frame g st fr r).2 := by
  rcases handle_compressed_cases g st fr r with hst | ⟨kf, hst⟩
  · rw [hst]; exact le6_refl st
  · rw [hst]; exact send_le6 _ _ _ _ _

/-- A loop iteration only increments the six throughput counters (the
connection-count sampling touches none of them). -/
theorem step_le6 (s : ConvState) (inp : LoopInput) :
    Stats.le6 s.stats (loop_iteration s inp).1.stats := by
  obtain ⟨ev, c⟩ := inp
  cases ev with
  | video fr r =>
    rw [loop_iteration_video]
    have h1 : Stats.le6 s.stats
        { s.stats with frames_received := s.stats.frames_received + 1 } := by
      simp [Stats.le6]
    cases c with
    | none => exact le6_trans h1 (handle_compressed_le6 _ _ _ _)
    | some n => exact le6_trans h1 (handle_compressed_le6 _ _ _ _)
  | audio => cases c <;> exact le6_refl _
  | metadata => cases c <;> exact le6_refl _
  | noFrame => cases c <;> exact le6_refl _
  | statusChange => cases c <;> exact le6_refl _

/-- Along any run the six throughput counters never decrease. -/
theorem run_le6 (s : ConvState) (t : List LoopInput) :
    Stats.le6 s.stats (run_loop s t).stats := by
  induction t generalizing s with
  | nil => exact le6_refl _
  | cons inp rest ih => exact le6_trans (step_le6 s inp) (ih _)

/-- Running a concatenated trace is running the pieces in order. -/
theorem run_append (s : ConvState) (pre suf : List LoopInput) :
    run_loop s (pre ++ suf) = run_loop (run_loop s pre) suf := by
  induction pre generalizing s with
  | nil => rfl
  | cons inp rest ih => exact ih _

/-- The compressed handler keeps the sent counter strictly below a
received counter it was strictly below on entry. -/
theorem handle_compressed_sent_le (g : StreamGeometry) (st : Stats)
    (fr : NDIVideoFrame) (r : Int)
    (h : st.frames_sent + 1 ≤ st.frames_received) :
    (handle_compressed_frame g st fr r).2.frames_sent ≤
      (handle_compressed_frame g st fr r).2.frames_received := by
  rcases handle_compressed_cases g st fr r with hst | ⟨kf, hst⟩
  · rw [hst]; omega
  · rw [hst, send_stats_spec]
    by_cases hr : 0 ≤ r <;> simp [hr] <;> omega

/-- A loop iteration preserves sent ≤ received. -/
theorem sent_le_received_step (s : ConvState) (inp : LoopInput)
    (h : s.stats.frames_sent ≤ s.stats.frames_received) :
    (loop_iteration s inp).1.stats.frames_sent ≤
      (loop_iteration s inp).1.stats.frames_received := by
  obtain ⟨ev, c⟩ := inp
  cases ev with
  | video fr r =>
    rw [loop_iteration_video]
    cases c with
    | none => exact handle_compressed_sent_le _ _ _ _ (Nat.succ_le_succ h)
    | some n => exact handle_compressed_sent_le _ _ _ _ (Nat.succ_le_succ h)
  | audio => cases c <;> exact h
  | metadata => cases c <;> exact h
  | noFrame => cases c <;> exact h
  | statusChange => cases c <;> exact h

/-- Along any run from the initial state, sent ≤ received. -/
theorem sent_le_received_run (t : List LoopInput) :
    (run_loop startState t).stats.frames_sent ≤
      (run_loop startState t).stats.frames_received := by
  suffices h : ∀ (s : ConvState),
      s.stats.frames_sent ≤ s.stats.frames_received →
      (run_loop s t).stats.frames_sent ≤
        (run_loop s t).stats.frames_received from
    h startState (Nat.le_refl 0)
  induction t with
  | nil => exact fun s h => h
  | cons inp rest ih => exact fun s h => ih _ (sent_le_received_step s inp h)

/-- The counting discipline of the code: it never resets or decrements
any throughput counter, so the unbounded totals of the increments are
monotone non-decreasing along every run (any earlier point is dominated
by any later one), the sent total never exceeds the received total, and
the success rate of the totals lies in [0,1].  The 32-bit cells storing
these totals are `int32val` of them and therefore wrap once a total
reaches 2^31 — see the claim-C7 theorem for the resulting violation of
monotonicity of the stored values. -/
theorem counters_monotone_and_rate (pre suf : List LoopInput) :
    Stats.le6 (run_loop startState pre).stats
        (run_loop startState (pre ++ suf)).stats ∧
      (run_loop startState (pre ++ suf)).stats.frames_sent ≤
        (run_loop startState (pre ++ suf)).stats.frames_received ∧
      0 ≤ successRate (run_loop startState (pre ++ suf)).stats ∧
      successRate (run_loop startState (pre ++ suf)).stats ≤ 1 := by
  have hsr := sent_le_received_run (pre ++ suf)
  refine ⟨?_, hsr, ?_, ?_⟩
  · rw [run_append]
    exact run_le6 _ _
  · unfold successRate
    split
    · exact div_nonneg (Nat.cast_nonneg _) (Nat.cast_nonneg _)
    · exact le_refl 0
  · unfold successRate
    split
    · next hpos =>
      rw [div_le_one (by exact_mod_cast hpos)]
      exact_mod_cast hsr
    · exact zero_le_one

/-! ### Classifier characterisation (claim C5) -/

/-- One step of the scan loop: test the 4-byte code, then the 3-byte code,
break on a hit (both hits read the same following byte). -/
theorem scanLoop_cons (d : List Byte) (i : Nat) (l : List Nat) :
    scanLoop d (i :: l) =
      if endHit d i then (true, nalAfterEnd d i) else scanLoop d l := by
  have h : scanLoop d (i :: l) =
      if is4Marker d i then (true, nalAfterEnd d i)
      else if is3Marker d i then (true, nalAfterEnd d i)
      else scanLoop d l := rfl
  rw [h]
  unfold endHit
  by_cases h4 : is4Marker d i
  · simp [h4]
  · by_cases h3 : is3Marker d i <;> simp [h4, h3]

/-- A scan over indices none of which hits a start code reports
no-start-code / Unknown. -/
theorem scanLoop_range'_none (d : List Byte) (n : Nat) :
    ∀ s, (∀ i, s ≤ i → i < s + n → endHit d i = false) →
      scanLoop d (List.range' s n) = (false, .Unknown) := by
  induction n with
  | zero => intro s _; rfl
  | succ n ih =>
    intro s h
    have hs : endHit d s = false := h s (le_refl s) (by omega)
    rw [List.range'_succ, scanLoop_cons]
    simp only [hs, Bool.false_eq_true, if_false]
    exact ih (s + 1) fun i hi1 hi2 => h i (by omega) (by omega)

/-- A scan whose earliest hit among its indices is `j` breaks there and
reads the byte after `j`. -/
theorem scanLoop_range'_found (d : List Byte) (n : Nat) :
    ∀ s j, s ≤ j → j < s + n → endHit d j = true →
      (∀ i, s ≤ i → i < j → endHit d i = false) →
      scanLoop d (List.range' s n) = (true, nalAfterEnd d j) := by
  induction n with
  | zero => intro s j h1 h2 _ _; omega
  | succ n ih =>
    intro s j hsj hjn hj hmin
    rw [List.range'_succ, scanLoop_cons]
    rcases Nat.eq_or_lt_of_le hsj with heq | hlt
    · subst heq
      simp only [hj, if_true]
    · have hs : endHit d s = false := hmin s (le_refl s) hlt
      simp only [hs, Bool.false_eq_true, if_false]
      exact ih (s + 1) j hlt (by omega) hj fun i h1 h2 => hmin i (by omega) h2

/-- One step of the spec-side scan. -/
theorem specScanFrom_cons (d : List Byte) (p : Nat) (ps : List Nat) :
    specScanFrom d (p :: ps) =
      if marker4At d p then some (p, 4)
      else if marker3At d p then some (p, 3)
      else specScanFrom d ps := rfl

/-- A spec-side scan over positions none of which starts a marker finds
nothing. -/
theorem specScan_range'_none (d : List Byte) (n : Nat) :
    ∀ s, (∀ p, s ≤ p → p < s + n → startHit d p = false) →
      specScanFrom d (List.range' s n) = none := by
  induction n with
  | zero => intro s _; rfl
  | succ n ih =>
    intro s h
    have hs : startHit d s = false := h s (le_refl s) (by omega)
    simp only [startHit, Bool.or_eq_false_iff] at hs
    rw [List.range'_succ, specScanFrom_cons]
    simp only [hs.1, hs.2, Bool.false_eq_true, if_false]
    exact ih (s + 1) fun p h1 h2 => h p (by omega) (by omega)

/-- A spec-side scan whose earliest marker start among its positions is
`p` returns `p` with the matching marker length (4 takes precedence, but
at a fixed position the two markers are mutually exclusive). -/
theorem specScan_range'_found (d : List Byte) (n : Nat) :
    ∀ s p, s ≤ p → p < s + n → startHit d p = true →
      (∀ q, s ≤ q → q < p → startHit d q = false) →
      specScanFrom d (List.range' s n) =
        some (p, if marker4At d p then 4 else 3) := by
  induction n with
  | zero => intro s p h1 h2 _ _; omega
  | succ n ih =>
    intro s p hsp hpn hp hmin
    rw [List.range'_succ, specScanFrom_cons]
    rcases Nat.eq_or_lt_of_le hsp with heq | hlt
    · subst heq
      by_cases h4 : marker4At d s
      · simp only [h4, if_true]
      · have h3 : marker3At d s = true := by
          have := hp
          simp only [startHit, Bool.or_eq_true] at this
          exact this.resolve_left (by simp [h4])
        simp only [h4, h3, Bool.false_eq_true, if_false, if_true]
    · have hs : startHit d s = false := hmin s (le_refl s) hlt
      simp only [startHit, Bool.or_eq_false_iff] at hs
      simp only [hs.1, hs.2, Bool.false_eq_true, if_false]
      exact ih (s + 1) p hlt (by omega) hp fun q h1 h2 => hmin q (by omega) h2

/-- A 4-byte-code hit at loop index `i` inside the window is a 4-byte
marker starting at `i - 3`. -/
theorem is4_dest (d : List Byte) (i : Nat) (hiw : i < specWindow d)
    (h : is4Marker d i = true) : ∃ k, i = k + 3 ∧ marker4At d k = true := by
  simp only [is4Marker, Bool.and_eq_true, decide_eq_true_eq, beq_iff_eq] at h
  obtain ⟨⟨⟨⟨h3i, hb0⟩, hb1⟩, hb2⟩, hb3⟩ := h
  refine ⟨i - 3, by omega, ?_⟩
  simp only [marker4At, Bool.and_eq_true, decide_eq_true_eq, beq_iff_eq]
  have e0 : i - 3 + 3 = i := by omega
  have e1 : i - 3 + 1 = i - 2 := by omega
  have e2 : i - 3 + 2 = i - 1 := by omega
  rw [e0, e1, e2]
  exact ⟨⟨⟨⟨hiw, hb0⟩, hb1⟩, hb2⟩, hb3⟩

/-- A 4-byte marker starting at `p` makes the loop's 4-byte test fire at
index `p + 3`, inside the window. -/
theorem is4_of_marker4 (d : List Byte) (p : Nat) (h : marker4At d p = true) :
    is4Marker d (p + 3) = true ∧ p + 3 < specWindow d := by
  simp only [marker4At, Bool.and_eq_true, decide_eq_true_eq, beq_iff_eq] at h
  obtain ⟨⟨⟨⟨hw, hb0⟩, hb1⟩, hb2⟩, hb3⟩ := h
  refine ⟨?_, hw⟩
  simp only [is4Marker, Bool.and_eq_true, decide_eq_true_eq, beq_iff_eq]
  have e0 : p + 3 - 3 = p := by omega
  have e1 : p + 3 - 2 = p + 1 := by omega
  have e2 : p + 3 - 1 = p + 2 := by omega
  rw [e0, e1, e2]
  exact ⟨⟨⟨⟨by omega, hb0⟩, hb1⟩, hb2⟩, hb3⟩

/-- A 3-byte-code hit at loop index `i` inside the window is a 3-byte
marker starting at `i - 2`. -/
theorem is3_dest (d : List Byte) (i : Nat) (hiw : i < specWindow d)
    (h : is3Marker d i = true) : ∃ k, i = k + 2 ∧ marker3At d k = true := by
  simp only [is3Marker, Bool.and_eq_true, decide_eq_true_eq, beq_iff_eq] at h
  obtain ⟨⟨⟨h2i, hb0⟩, hb1⟩, hb2⟩ := h
  refine ⟨i - 2, by omega, ?_⟩
  simp only [marker3At, Bool.and_eq_true, decide_eq_true_eq, beq_iff_eq]
  have e0 : i - 2 + 2 = i := by omega
  have e1 : i - 2 + 1 = i - 1 := by omega
  rw [e0, e1]
  exact ⟨⟨⟨hiw, hb0⟩, hb1⟩, hb2⟩

/-- A 3-byte marker starting at `p` makes the loop's 3-byte test fire at
index `p + 2`, inside the window. -/
theorem is3_of_marker3 (d : List Byte) (p : Nat) (h : marker3At d p = true) :
    is3Marker d (p + 2) = true ∧ p + 2 < specWindow d := by
  simp only [marker3At, Bool.and_eq_true, decide_eq_true_eq, beq_iff_eq] at h
  obtain ⟨⟨⟨hw, hb0⟩, hb1⟩, hb2⟩ := h
  refine ⟨?_, hw⟩
  simp only [is3Marker, Bool.and_eq_true, decide_eq_true_eq, beq_iff_eq]
  have e0 : p + 2 - 2 = p := by omega
  have e1 : p + 2 - 1 = p + 1 := by omega
  rw [e0, e1]
  exact ⟨⟨⟨by omega, hb0⟩, hb1⟩, hb2⟩

/-- The two marker kinds are mutually exclusive at a fixed start position
(byte 3 of the window is 1 for one, 0 for the other). -/
theorem marker3_not4 (d : List Byte) (p : Nat) (h : marker3At d p = true) :
    marker4At d p = false := by
  simp only [marker3At, Bool.and_eq_true, decide_eq_true_eq, beq_iff_eq] at h
  obtain ⟨⟨⟨hw, hb0⟩, hb1⟩, hb2⟩ := h
  cases hm : marker4At d p
  · rfl
  · exfalso
    simp only [marker4At, Bool.and_eq_true, decide_eq_true_eq,
      beq_iff_eq] at hm
    obtain ⟨⟨⟨⟨_, _⟩, _⟩, hbad⟩, _⟩ := hm
    rw [hb2] at hbad
    exact one_ne_zero hbad

/-- Claim C5: the byte-scan classifier of `handle_compressed_frame`
behaves exactly as specified — it scans the first min(32, span length)
bytes for a 3-byte or 4-byte start code, maps the low 5 bits of the byte
after the first marker found (5/1/7/8/other to IDR/P-frame/SPS/PPS/other),
and reports Unknown when no marker lies in the window. -/
theorem classifier_matches_spec (d : List Byte) :
    (classifyH264 d).2 = specClassify d := by
  have hw : min d.length 32 = specWindow d := by
    simp [specWindow, Nat.min_comm]
  by_cases hex : ∃ i, i < specWindow d ∧ endHit d i = true
  · have he := Nat.find_spec hex
    have hew : Nat.find hex < specWindow d := he.1
    have hmin : ∀ i, i < Nat.find hex → endHit d i = false := by
      intro i hi
      have hni := Nat.find_min hex hi
      cases hEH : endHit d i
      · rfl
      · exact absurd ⟨lt_trans hi hew, hEH⟩ hni
    have hcode : classifyH264 d = (true, nalAfterEnd d (Nat.find hex)) := by
      unfold classifyH264
      rw [hw, List.range_eq_range']
      exact scanLoop_range'_found d (specWindow d) 0 (Nat.find hex)
        (Nat.zero_le _) (by omega) he.2 fun i _ hi => hmin i hi
    rw [hcode]
    by_cases h4 : is4Marker d (Nat.find hex) = true
    · obtain ⟨k, hek, hm4⟩ := is4_dest d (Nat.find hex) hew h4
      have hminspec : ∀ q, q < k → startHit d q = false := by
        intro q hq
        cases hS : startHit d q
        · rfl
        · exfalso
          simp only [startHit, Bool.or_eq_true] at hS
          rcases hS with hm | hm
          · obtain ⟨hq4, hqw⟩ := is4_of_marker4 d q hm
            have hEf := hmin (q + 3) (by omega)
            have hE : endHit d (q + 3) = true := by simp [endHit, hq4]
            rw [hEf] at hE
            exact Bool.noConfusion hE
          · obtain ⟨hq3, hqw⟩ := is3_of_marker3 d q hm
            have hEf := hmin (q + 2) (by omega)
            have hE : endHit d (q + 2) = true := by simp [endHit, hq3]
            rw [hEf] at hE
            exact Bool.noConfusion hE
      have hkw : k + 3 < specWindow d := (is4_of_marker4 d k hm4).2
      have hspec : specScanFrom d (List.range (specWindow d)) = some (k, 4) := by
        rw [List.range_eq_range']
        have hres := specScan_range'_found d (specWindow d) 0 k (Nat.zero_le _)
          (by omega) (by simp [startHit, hm4]) fun q _ hq => hminspec q hq
        rw [hres]
        simp [hm4]
      rw [hek]
      unfold specClassify
      rw [hspec]
      have h34 : k + 3 + 1 = k + 4 := by omega
      simp [nalAfterEnd, h34]
    · have h3 : is3Marker d (Nat.find hex) = true := by
        have h2 : (is4Marker d (Nat.find hex) ||
            is3Marker d (Nat.find hex)) = true := he.2
        rcases (Bool.or_eq_true _ _).mp h2 with hh | hh
        · exact absurd hh h4
        · exact hh
      obtain ⟨k, hek, hm3⟩ := is3_dest d (Nat.find hex) hew h3
      have hm4k : marker4At d k = false := marker3_not4 d k hm3
      have hminspec : ∀ q, q < k → startHit d q = false := by
        intro q hq
        cases hS : startHit d q
        · rfl
        · exfalso
          simp only [startHit, Bool.or_eq_true] at hS
          rcases hS with hm | hm
          · obtain ⟨hq4, hqw⟩ := is4_of_marker4 d q hm
            rcases Nat.lt_or_ge (q + 3) (Nat.find hex) with hlt | hge
            · have hEf := hmin (q + 3) hlt
              have hE : endHit d (q + 3) = true := by simp [endHit, hq4]
              rw [hEf] at hE
              exact Bool.noConfusion hE
            · have heq : q + 3 = Nat.find hex := by omega
              rw [heq] at hq4
              exact h4 hq4
          · obtain ⟨hq3, hqw⟩ := is3_of_marker3 d q hm
            have hEf := hmin (q + 2) (by omega)
            have hE : endHit d (q + 2) = true := by simp [endHit, hq3]
            rw [hEf] at hE
            exact Bool.noConfusion hE
      have hkw : k + 2 < specWindow d := (is3_of_marker3 d k hm3).2
      have hspec : specScanFrom d (List.range (specWindow d)) = some (k, 3) := by
        rw [List.range_eq_range']
        have hres := specScan_range'_found d (specWindow d) 0 k (Nat.zero_le _)
          (by omega) (by simp [startHit, hm3]) fun q _ hq => hminspec q hq
        rw [hres]
        simp [hm4k]
      rw [hek]
      unfold specClassify
      rw [hspec]
      have h23 : k + 2 + 1 = k + 3 := by omega
      simp [nalAfterEnd, h23]
  · push_neg at hex
    have hnone : ∀ i, i < specWindow d → endHit d i = false := by
      intro i hi
      cases hEH : endHit d i
      · rfl
      · exact absurd hEH (hex i hi)
    have hcode : classifyH264 d = (false, .Unknown) := by
      unfold classifyH264
      rw [hw, List.range_eq_range']
      exact scanLoop_range'_none d (specWindow d) 0 fun i _ hi =>
        hnone i (by omega)
    have hspecnone : ∀ p, p < specWindow d → startHit d p = false := by
      intro p hp
      cases hS : startHit d p
      · rfl
      · exfalso
        simp only [startHit, Bool.or_eq_true] at hS
        rcases hS with hm | hm
        · obtain ⟨hq4, hqw⟩ := is4_of_marker4 d p hm
          have hEf := hnone (p + 3) hqw
          have hE : endHit d (p + 3) = true := by simp [endHit, hq4]
          rw [hEf] at hE
          exact Bool.noConfusion hE
        · obtain ⟨hq3, hqw⟩ := is3_of_marker3 d p hm
          have hEf := hnone (p + 2) hqw
          have hE : endHit d (p + 2) = true := by simp [endHit, hq3]
          rw [hEf] at hE
          exact Bool.noConfusion hE
    have hspec : specScanFrom d (List.range (specWindow d)) = none := by
      rw [List.range_eq_range']
      exact specScan_range'_none d (specWindow d) 0 fun p _ hp =>
        hspecnone p (by omega)
    rw [hcode]
    unfold specClassify
    rw [hspec]

/-! ### Properties of the binary rounding model (claim C8) -/

/-- Powers of two are positive. -/
theorem pow2Q_pos (e : ℤ) : 0 < pow2Q e := zpow_pos (by norm_num) e

/-- Powers of two multiply by adding exponents. -/
theorem pow2Q_add (a b : ℤ) : pow2Q (a + b) = pow2Q a * pow2Q b :=
  zpow_add₀ (by norm_num) a b

/-- Powers of two are monotone in the exponent. -/
theorem pow2Q_mono {a b : ℤ} (h : a ≤ b) : pow2Q a ≤ pow2Q b :=
  zpow_le_zpow_right₀ (by norm_num) h

/-- Powers of two are strictly monotone in the exponent. -/
theorem pow2Q_lt_iff {a b : ℤ} : pow2Q a < pow2Q b ↔ a < b :=
  zpow_lt_zpow_iff_right₀ (by norm_num)

/-- A natural exponent gives the usual monoid power. -/
theorem pow2Q_ofNat (n : ℕ) : pow2Q (n : ℤ) = (2 : ℚ) ^ n := by
  rw [pow2Q, zpow_natCast]

/-- Round-half-even is at least the floor. -/
theorem rhe_ge_floor (t : ℚ) : ⌊t⌋ ≤ roundHalfEven t := by
  dsimp only [roundHalfEven]
  split
  · exact le_refl _
  · split
    · omega
    · split <;> omega

/-- Round-half-even is at most the floor plus one. -/
theorem rhe_le_floor_add_one (t : ℚ) : roundHalfEven t ≤ ⌊t⌋ + 1 := by
  dsimp only [roundHalfEven]
  split
  · omega
  · split
    · omega
    · split <;> omega

/-- Integers round to themselves. -/
theorem rhe_intCast (n : ℤ) : roundHalfEven (n : ℚ) = n := by
  dsimp only [roundHalfEven]
  rw [Int.floor_intCast]
  rw [if_pos (by norm_num)]

/-- Anything at least `n` rounds to at least `n`. -/
theorem rhe_ge_int (n : ℤ) (t : ℚ) (h : (n : ℚ) ≤ t) : n ≤ roundHalfEven t :=
  le_trans (Int.le_floor.mpr h) (rhe_ge_floor t)

/-- Anything strictly above `n + 1/2` rounds up to at least `n + 1`. -/
theorem rhe_gt_half (n : ℤ) (t : ℚ) (h : (n : ℚ) + 1 / 2 < t) :
    n + 1 ≤ roundHalfEven t := by
  have hfl : n ≤ ⌊t⌋ := Int.le_floor.mpr (by linarith)
  rcases eq_or_lt_of_le hfl with heq | hlt
  · dsimp only [roundHalfEven]
    rw [← heq]
    have h1 : ¬(t - (n : ℚ) < 1 / 2) := by linarith
    have h2 : (1 : ℚ) / 2 < t - (n : ℚ) := by linarith
    rw [if_neg h1, if_pos h2]
  · exact le_trans (by omega) (rhe_ge_floor t)

/-- Anything at most `n + 1/2`, with `n` even, rounds down to at most `n`
(the tie case goes to the even side). -/
theorem rhe_le_halfEven (n : ℤ) (t : ℚ) (h : t ≤ (n : ℚ) + 1 / 2)
    (hev : n % 2 = 0) : roundHalfEven t ≤ n := by
  have hfl : ⌊t⌋ ≤ n := by
    have h1 : t < ((n + 1 : ℤ) : ℚ) := by push_cast; linarith
    have := Int.floor_lt.mpr h1
    omega
  rcases eq_or_lt_of_le hfl with heq | hlt
  · dsimp only [roundHalfEven]
    rw [heq]
    by_cases h1 : t - (n : ℚ) < 1 / 2
    · rw [if_pos h1]
    · have h2 : ¬((1 : ℚ) / 2 < t - (n : ℚ)) := by
        have hle : t - (n : ℚ) ≤ 1 / 2 := by linarith
        linarith
      rw [if_neg h1, if_neg h2, if_pos hev]
  · exact le_trans (rhe_le_floor_add_one t) (by omega)

/-- Negative powers of two as unit fractions. -/
theorem pow2Q_negEval (n : ℕ) : pow2Q (-(n : ℤ)) = 1 / (2 : ℚ) ^ n := by
  rw [pow2Q, zpow_neg, zpow_natCast, one_div]

/-- `qlog2` brackets a positive rational between consecutive powers of
two. -/
theorem qlog2_spec (q : ℚ) (hq : 0 < q) :
    pow2Q (qlog2 q) ≤ q ∧ q < pow2Q (qlog2 q + 1) := by
  have hnum : (0 : ℤ) < q.num := Rat.num_pos.mpr hq
  have ha0 : q.num.toNat ≠ 0 := by omega
  have hb0 : q.den ≠ 0 := q.den_nz
  have hbQ : (0 : ℚ) < (q.den : ℚ) := by exact_mod_cast Nat.pos_of_ne_zero hb0
  have hq_eq : q = (q.num.toNat : ℚ) / (q.den : ℚ) := by
    have h1 : ((q.num.toNat : ℤ) : ℚ) = (q.num : ℚ) := by
      rw [Int.toNat_of_nonneg (le_of_lt hnum)]
    conv_lhs => rw [← Rat.num_div_den q]
    rw [← h1]
    push_cast
    ring
  have hA1 : (2 : ℚ) ^ Nat.log2 q.num.toNat ≤ (q.num.toNat : ℚ) := by
    exact_mod_cast Nat.log2_self_le ha0
  have hA2 : (q.num.toNat : ℚ) < (2 : ℚ) ^ (Nat.log2 q.num.toNat + 1) := by
    exact_mod_cast Nat.lt_log2_self
  have hB1 : (2 : ℚ) ^ Nat.log2 q.den ≤ (q.den : ℚ) := by
    exact_mod_cast Nat.log2_self_le hb0
  have hB2 : (q.den : ℚ) < (2 : ℚ) ^ (Nat.log2 q.den + 1) := by
    exact_mod_cast Nat.lt_log2_self
  set α := Nat.log2 q.num.toNat with hα
  set β := Nat.log2 q.den with hβ
  have key1 : q < pow2Q ((α : ℤ) - (β : ℤ) + 1) := by
    rw [hq_eq, div_lt_iff₀ hbQ]
    calc (q.num.toNat : ℚ) < (2 : ℚ) ^ (α + 1) := hA2
      _ = pow2Q ((α : ℤ) + 1) := by
          rw [show ((α : ℤ) + 1) = ((α + 1 : ℕ) : ℤ) by push_cast; ring,
            pow2Q_ofNat]
      _ = pow2Q ((α : ℤ) - β + 1) * pow2Q (β : ℤ) := by
          rw [← pow2Q_add]; congr 1; ring
      _ ≤ pow2Q ((α : ℤ) - β + 1) * (q.den : ℚ) := by
          apply mul_le_mul_of_nonneg_left _ (le_of_lt (pow2Q_pos _))
          rw [pow2Q_ofNat]
          exact hB1
  have key2 : pow2Q ((α : ℤ) - β - 1) < q := by
    rw [hq_eq, lt_div_iff₀ hbQ]
    calc pow2Q ((α : ℤ) - β - 1) * (q.den : ℚ)
        < pow2Q ((α : ℤ) - β - 1) * (2 : ℚ) ^ (β + 1) := by
          apply mul_lt_mul_of_pos_left hB2 (pow2Q_pos _)
      _ = pow2Q ((α : ℤ) - β - 1) * pow2Q ((β : ℤ) + 1) := by
          rw [show ((β : ℤ) + 1) = ((β + 1 : ℕ) : ℤ) by push_cast; ring,
            pow2Q_ofNat]
      _ = pow2Q (α : ℤ) := by rw [← pow2Q_add]; congr 1; ring
      _ ≤ (q.num.toNat : ℚ) := by rw [pow2Q_ofNat]; exact hA1
  have hqlog : qlog2 q =
      if pow2Q ((α : ℤ) - β) ≤ q then (α : ℤ) - β else (α : ℤ) - β - 1 := rfl
  rw [hqlog]
  by_cases hle : pow2Q ((α : ℤ) - β) ≤ q
  · rw [if_pos hle]
    exact ⟨hle, key1⟩
  · rw [if_neg hle]
    refine ⟨le_of_lt key2, ?_⟩
    rw [show (α : ℤ) - β - 1 + 1 = (α : ℤ) - β by ring]
    exact not_le.mp hle

/-- `qlog2` is the unique exponent with this bracketing. -/
theorem qlog2_unique (q : ℚ) (e : ℤ) (hq : 0 < q) (h1 : pow2Q e ≤ q)
    (h2 : q < pow2Q (e + 1)) : qlog2 q = e := by
  obtain ⟨g1, g2⟩ := qlog2_spec q hq
  by_contra hne
  rcases lt_or_gt_of_ne hne with hlt | hgt
  · have hmono : pow2Q (qlog2 q + 1) ≤ pow2Q e := pow2Q_mono (by omega)
    linarith
  · have hmono : pow2Q (e + 1) ≤ pow2Q (qlog2 q) := pow2Q_mono (by omega)
    linarith

/-- `rndQ` at zero. -/
theorem rndQ_zero (prec : Nat) : rndQ prec 0 = 0 := by
  rw [rndQ, if_pos (le_refl 0)]

/-- `rndQ` unfolded on positive input. -/
theorem rndQ_pos_eq (prec : Nat) (q : ℚ) (hq : 0 < q) :
    rndQ prec q =
      ((roundHalfEven (q * pow2Q ((prec : ℤ) - 1 - qlog2 q)) : ℤ) : ℚ) *
        pow2Q (qlog2 q + 1 - (prec : ℤ)) := by
  rw [rndQ, if_neg (not_le.mpr hq)]

/-- `rndQ 24` unfolded: significand scaled to the binade `[2^23, 2^24)`. -/
theorem rnd24_eq (x : ℚ) (hx : 0 < x) :
    rndQ 24 x =
      ((roundHalfEven (x * pow2Q (23 - qlog2 x)) : ℤ) : ℚ) *
        pow2Q (qlog2 x - 23) := by
  rw [rndQ_pos_eq 24 x hx,
    show ((24 : ℕ) : ℤ) - 1 - qlog2 x = 23 - qlog2 x by push_cast; ring,
    show qlog2 x + 1 - ((24 : ℕ) : ℤ) = qlog2 x - 23 by push_cast; ring]

/-- The scaled significand argument of `rndQ 24` lies in `[2^23, 2^24)`. -/
theorem rnd24_scale (x : ℚ) (hx : 0 < x) :
    pow2Q 23 ≤ x * pow2Q (23 - qlog2 x) ∧
      x * pow2Q (23 - qlog2 x) < pow2Q 24 := by
  obtain ⟨g1, g2⟩ := qlog2_spec x hx
  constructor
  · calc pow2Q 23 = pow2Q (qlog2 x) * pow2Q (23 - qlog2 x) := by
          rw [← pow2Q_add]; congr 1; ring
      _ ≤ x * pow2Q (23 - qlog2 x) :=
          mul_le_mul_of_nonneg_right g1 (le_of_lt (pow2Q_pos _))
  · calc x * pow2Q (23 - qlog2 x)
        < pow2Q (qlog2 x + 1) * pow2Q (23 - qlog2 x) :=
          mul_lt_mul_of_pos_right g2 (pow2Q_pos _)
      _ = pow2Q 24 := by rw [← pow2Q_add]; congr 1; ring

/-- If a nonnegative rational exceeds the rounding threshold
26843545/2^28 (≈ 0.1 − 2.2e-9), its binary32 rounding compares strictly
greater than the binary64 value of 0.1. -/
theorem rnd24_gt_of_gt (x : ℚ) (hx : 0 < x)
    (hM : (26843545 : ℚ) / 268435456 < x) :
    (7205759403792794 : ℚ) / 72057594037927936 < rndQ 24 x := by
  obtain ⟨g1, g2⟩ := qlog2_spec x hx
  have he4 : -4 ≤ qlog2 x := by
    by_contra h
    push_neg at h
    have h1 : pow2Q (qlog2 x + 1) ≤ pow2Q (-4 : ℤ) := pow2Q_mono (by omega)
    have h2 : pow2Q (-4 : ℤ) = 1 / 16 := by
      rw [show (-4 : ℤ) = -((4 : ℕ) : ℤ) by norm_num, pow2Q_negEval]
      norm_num
    rw [h2] at h1
    linarith
  rw [rnd24_eq x hx]
  by_cases he3 : -3 ≤ qlog2 x
  · have hsc := (rnd24_scale x hx).1
    have h23 : pow2Q 23 = ((8388608 : ℤ) : ℚ) := by
      rw [show (23 : ℤ) = ((23 : ℕ) : ℤ) by norm_num, pow2Q_ofNat]
      norm_num
    have hrhe : (8388608 : ℤ) ≤ roundHalfEven (x * pow2Q (23 - qlog2 x)) := by
      apply rhe_ge_int
      rw [← h23]
      exact hsc
    have hcast : ((8388608 : ℤ) : ℚ) ≤
        ((roundHalfEven (x * pow2Q (23 - qlog2 x)) : ℤ) : ℚ) := by
      exact_mod_cast hrhe
    have hstep : pow2Q (qlog2 x) ≤
        ((roundHalfEven (x * pow2Q (23 - qlog2 x)) : ℤ) : ℚ) *
          pow2Q (qlog2 x - 23) := by
      calc pow2Q (qlog2 x) = pow2Q 23 * pow2Q (qlog2 x - 23) := by
            rw [← pow2Q_add]; congr 1; ring
        _ = ((8388608 : ℤ) : ℚ) * pow2Q (qlog2 x - 23) := by rw [h23]
        _ ≤ _ := mul_le_mul_of_nonneg_right hcast (le_of_lt (pow2Q_pos _))
    have h8 : pow2Q (-3 : ℤ) ≤ pow2Q (qlog2 x) := pow2Q_mono he3
    have h8v : pow2Q (-3 : ℤ) = 1 / 8 := by
      rw [show (-3 : ℤ) = -((3 : ℕ) : ℤ) by norm_num, pow2Q_negEval]
      norm_num
    rw [h8v] at h8
    linarith
  · have he : qlog2 x = -4 := by omega
    rw [he, show (23 : ℤ) - (-4) = 27 by norm_num,
      show (-4 : ℤ) - 23 = -27 by norm_num]
    have h27 : pow2Q (27 : ℤ) = 134217728 := by
      rw [show (27 : ℤ) = ((27 : ℕ) : ℤ) by norm_num, pow2Q_ofNat]
      norm_num
    have ht : (13421772 : ℚ) + 1 / 2 < x * pow2Q 27 := by
      rw [h27]
      have hmul := mul_lt_mul_of_pos_right hM
        (show (0 : ℚ) < 134217728 by norm_num)
      calc (13421772 : ℚ) + 1 / 2 =
          (26843545 : ℚ) / 268435456 * 134217728 := by norm_num
        _ < x * 134217728 := hmul
    have hrhe : (13421773 : ℤ) ≤ roundHalfEven (x * pow2Q 27) := by
      have h := rhe_gt_half 13421772 (x * pow2Q 27) (by push_cast; linarith)
      omega
    have hcast : ((13421773 : ℤ) : ℚ) ≤
        ((roundHalfEven (x * pow2Q 27) : ℤ) : ℚ) := by exact_mod_cast hrhe
    have hneg27 : pow2Q (-27 : ℤ) = 1 / 134217728 := by
      rw [show (-27 : ℤ) = -((27 : ℕ) : ℤ) by norm_num, pow2Q_negEval]
      norm_num
    calc (7205759403792794 : ℚ) / 72057594037927936
        < ((13421773 : ℤ) : ℚ) * pow2Q (-27 : ℤ) := by
          rw [hneg27]; push_cast; norm_num
      _ ≤ _ := mul_le_mul_of_nonneg_right hcast (le_of_lt (pow2Q_pos _))

/-- If a positive rational is at most the rounding threshold
26843545/2^28, its binary32 rounding compares at most the binary64 value
of 0.1 (ties round to the even significand 13421772). -/
theorem rnd24_le_of_le (x : ℚ) (hx : 0 < x)
    (hM : x ≤ (26843545 : ℚ) / 268435456) :
    rndQ 24 x ≤ (7205759403792794 : ℚ) / 72057594037927936 := by
  obtain ⟨g1, g2⟩ := qlog2_spec x hx
  have he4 : qlog2 x ≤ -4 := by
    by_contra h
    push_neg at h
    have h1 : pow2Q (-3 : ℤ) ≤ pow2Q (qlog2 x) := pow2Q_mono (by omega)
    have h2 : pow2Q (-3 : ℤ) = 1 / 8 := by
      rw [show (-3 : ℤ) = -((3 : ℕ) : ℤ) by norm_num, pow2Q_negEval]
      norm_num
    rw [h2] at h1
    linarith
  rw [rnd24_eq x hx]
  rcases eq_or_lt_of_le he4 with he | he5
  · rw [he, show (23 : ℤ) - (-4) = 27 by norm_num,
      show (-4 : ℤ) - 23 = -27 by norm_num]
    have h27 : pow2Q (27 : ℤ) = 134217728 := by
      rw [show (27 : ℤ) = ((27 : ℕ) : ℤ) by norm_num, pow2Q_ofNat]
      norm_num
    have ht : x * pow2Q 27 ≤ (13421772 : ℚ) + 1 / 2 := by
      rw [h27]
      have hmul := mul_le_mul_of_nonneg_right hM
        (show (0 : ℚ) ≤ 134217728 by norm_num)
      calc x * 134217728 ≤ (26843545 : ℚ) / 268435456 * 134217728 := hmul
        _ = (13421772 : ℚ) + 1 / 2 := by norm_num
    have hrhe : roundHalfEven (x * pow2Q 27) ≤ 13421772 :=
      rhe_le_halfEven 13421772 _ (by push_cast; linarith) (by norm_num)
    have hcast : ((roundHalfEven (x * pow2Q 27) : ℤ) : ℚ) ≤
        ((13421772 : ℤ) : ℚ) := by exact_mod_cast hrhe
    have hneg27 : pow2Q (-27 : ℤ) = 1 / 134217728 := by
      rw [show (-27 : ℤ) = -((27 : ℕ) : ℤ) by norm_num, pow2Q_negEval]
      norm_num
    calc ((roundHalfEven (x * pow2Q 27) : ℤ) : ℚ) * pow2Q (-27 : ℤ)
        ≤ ((13421772 : ℤ) : ℚ) * pow2Q (-27 : ℤ) :=
          mul_le_mul_of_nonneg_right hcast (le_of_lt (pow2Q_pos _))
      _ ≤ (7205759403792794 : ℚ) / 72057594037927936 := by
          rw [hneg27]; push_cast; norm_num
  · have hup := (rnd24_scale x hx).2
    have h24 : pow2Q (24 : ℤ) = ((16777216 : ℤ) : ℚ) := by
      rw [show (24 : ℤ) = ((24 : ℕ) : ℤ) by norm_num, pow2Q_ofNat]
      norm_num
    have hfl : ⌊x * pow2Q (23 - qlog2 x)⌋ < 16777216 := by
      apply Int.floor_lt.mpr
      rw [← h24]
      exact hup
    have hrhe : roundHalfEven (x * pow2Q (23 - qlog2 x)) ≤ 16777216 := by
      have h := rhe_le_floor_add_one (x * pow2Q (23 - qlog2 x))
      omega
    have hcast : ((roundHalfEven (x * pow2Q (23 - qlog2 x)) : ℤ) : ℚ) ≤
        ((16777216 : ℤ) : ℚ) := by exact_mod_cast hrhe
    have hstep : ((roundHalfEven (x * pow2Q (23 - qlog2 x)) : ℤ) : ℚ) *
        pow2Q (qlog2 x - 23) ≤ pow2Q (qlog2 x + 1) := by
      calc ((roundHalfEven (x * pow2Q (23 - qlog2 x)) : ℤ) : ℚ) *
          pow2Q (qlog2 x - 23)
          ≤ ((16777216 : ℤ) : ℚ) * pow2Q (qlog2 x - 23) :=
            mul_le_mul_of_nonneg_right hcast (le_of_lt (pow2Q_pos _))
        _ = pow2Q (24 : ℤ) * pow2Q (qlog2 x - 23) := by rw [h24]
        _ = pow2Q (qlog2 x + 1) := by rw [← pow2Q_add]; congr 1; ring
    have hbound : pow2Q (qlog2 x + 1) ≤ pow2Q (-4 : ℤ) := pow2Q_mono (by omega)
    have h4v : pow2Q (-4 : ℤ) = 1 / 16 := by
      rw [show (-4 : ℤ) = -((4 : ℕ) : ℤ) by norm_num, pow2Q_negEval]
      norm_num
    rw [h4v] at hbound
    linarith

/-- The exact flagging threshold of the float comparison: the binary32
rounding of a nonnegative rational compares greater than the binary64
value of `0.1` exactly when the rational exceeds 26843545/2^28 — in
particular, the ratio exactly 1/10 is above the threshold. -/
theorem rnd24_gt_tenth_iff (x : ℚ) (hx : 0 ≤ x) :
    ((7205759403792794 : ℚ) / 72057594037927936 < rndQ 24 x ↔
      (26843545 : ℚ) / 268435456 < x) := by
  rcases eq_or_lt_of_le hx with heq | hpos
  · rw [← heq, rndQ_zero]
    norm_num
  · constructor
    · intro hT
      by_contra hM
      push_neg at hM
      have h := rnd24_le_of_le x hpos hM
      linarith
    · exact rnd24_gt_of_gt x hpos

/-- Naturals up to 2^24 convert to binary32 exactly. -/
theorem rnd24_natCast (n : ℕ) (hn : n ≤ 16777216) :
    rndQ 24 (n : ℚ) = (n : ℚ) := by
  rcases Nat.eq_zero_or_pos n with h0 | hpos
  · subst h0
    rw [Nat.cast_zero, rndQ_zero]
  · have hq : (0 : ℚ) < (n : ℚ) := by exact_mod_cast hpos
    obtain ⟨g1, g2⟩ := qlog2_spec (n : ℚ) hq
    have he0 : 0 ≤ qlog2 (n : ℚ) := by
      by_contra h
      push_neg at h
      have h1 : pow2Q (qlog2 ((n : ℚ)) + 1) ≤ pow2Q (0 : ℤ) :=
        pow2Q_mono (by omega)
      have h2 : pow2Q (0 : ℤ) = 1 := by rw [pow2Q]; norm_num
      rw [h2] at h1
      have h3 : (n : ℚ) < 1 := lt_of_lt_of_le g2 h1
      have h4 : n < 1 := by exact_mod_cast h3
      omega
    have he24 : qlog2 (n : ℚ) ≤ 24 := by
      by_contra h
      push_neg at h
      have h1 : pow2Q (25 : ℤ) ≤ pow2Q (qlog2 ((n : ℚ))) :=
        pow2Q_mono (by omega)
      have h2 : pow2Q (25 : ℤ) = ((33554432 : ℕ) : ℚ) := by
        rw [show (25 : ℤ) = ((25 : ℕ) : ℤ) by norm_num, pow2Q_ofNat]
        norm_num
      have h3 : ((33554432 : ℕ) : ℚ) ≤ (n : ℚ) := by
        rw [← h2]
        exact le_trans h1 g1
      have h4 : (33554432 : ℕ) ≤ n := by exact_mod_cast h3
      omega
    rcases eq_or_lt_of_le he24 with hlt24 | hlt24
    swap
    · obtain ⟨k, hk⟩ : ∃ k : ℕ, (23 : ℤ) - qlog2 ((n : ℚ)) = (k : ℤ) :=
        ⟨((23 : ℤ) - qlog2 ((n : ℚ))).toNat, by omega⟩
      rw [rnd24_eq _ hq, hk, pow2Q_ofNat]
      have ht : (n : ℚ) * (2 : ℚ) ^ k = (((n * 2 ^ k : ℕ) : ℤ) : ℚ) := by
        push_cast
        ring
      rw [ht, rhe_intCast]
      have hke : qlog2 ((n : ℚ)) - 23 = -(k : ℤ) := by omega
      rw [hke, pow2Q_negEval]
      have h2k : ((2 : ℚ)) ^ k ≠ 0 := by positivity
      push_cast
      field_simp
    · have h1 : pow2Q (24 : ℤ) ≤ (n : ℚ) := by rw [← hlt24]; exact g1
      have h2 : pow2Q (24 : ℤ) = ((16777216 : ℕ) : ℚ) := by
        rw [show (24 : ℤ) = ((24 : ℕ) : ℤ) by norm_num, pow2Q_ofNat]
        norm_num
      rw [h2] at h1
      have h3 : (16777216 : ℕ) ≤ n := by exact_mod_cast h1
      have hn16 : n = 16777216 := le_antisymm hn h3
      subst hn16
      rw [rnd24_eq _ hq, hlt24, show (23 : ℤ) - 24 = -1 by norm_num,
        show (24 : ℤ) - 23 = 1 by norm_num]
      have hm1 : pow2Q (-1 : ℤ) = 1 / 2 := by
        rw [show (-1 : ℤ) = -((1 : ℕ) : ℤ) by norm_num, pow2Q_negEval]
        norm_num
      have hp1 : pow2Q (1 : ℤ) = 2 := by
        rw [show (1 : ℤ) = ((1 : ℕ) : ℤ) by norm_num, pow2Q_ofNat]
        norm_num
      have ht : ((16777216 : ℕ) : ℚ) * pow2Q (-1 : ℤ) =
          ((8388608 : ℤ) : ℚ) := by
        rw [hm1]
        push_cast
        norm_num
      rw [ht, rhe_intCast, hp1]
      push_cast
      norm_num

/-- The binade of one tenth. -/
theorem qlog2_tenth : qlog2 ((1 : ℚ) / 10) = -4 := by
  apply qlog2_unique _ _ (by norm_num)
  · rw [show (-4 : ℤ) = -((4 : ℕ) : ℤ) by norm_num, pow2Q_negEval]
    norm_num
  · rw [show (-4 : ℤ) + 1 = -((3 : ℕ) : ℤ) by norm_num, pow2Q_negEval]
    norm_num

/-- The binary32 value of one tenth. -/
theorem rnd24_tenth : rndQ 24 ((1 : ℚ) / 10) = (13421773 : ℚ) / 134217728 := by
  rw [rnd24_eq _ (by norm_num), qlog2_tenth,
    show (23 : ℤ) - (-4) = 27 by norm_num,
    show (-4 : ℤ) - 23 = -27 by norm_num]
  have h27 : pow2Q (27 : ℤ) = 134217728 := by
    rw [show (27 : ℤ) = ((27 : ℕ) : ℤ) by norm_num, pow2Q_ofNat]
    norm_num
  have ht : (1 : ℚ) / 10 * pow2Q 27 = 67108864 / 5 := by
    rw [h27]
    norm_num
  rw [ht]
  have hrhe : roundHalfEven ((67108864 : ℚ) / 5) = 13421773 := by
    have hge := rhe_gt_half 13421772 ((67108864 : ℚ) / 5)
      (by push_cast; norm_num)
    have hfl : ⌊(67108864 : ℚ) / 5⌋ < 13421773 :=
      Int.floor_lt.mpr (by push_cast; norm_num)
    have hle := rhe_le_floor_add_one ((67108864 : ℚ) / 5)
    omega
  rw [hrhe, show (-27 : ℤ) = -((27 : ℕ) : ℤ) by norm_num, pow2Q_negEval]
  push_cast
  norm_num

/-- The value of the double literal `0.1`. -/
theorem doubleTenth_eq :
    doubleTenth = (7205759403792794 : ℚ) / 72057594037927936 := by
  rw [doubleTenth, rndQ_pos_eq 53 _ (by norm_num), qlog2_tenth,
    show ((53 : ℕ) : ℤ) - 1 - (-4) = (56 : ℤ) by norm_num,
    show (-4 : ℤ) + 1 - ((53 : ℕ) : ℤ) = (-56 : ℤ) by norm_num,
    show (56 : ℤ) = ((56 : ℕ) : ℤ) by norm_num, pow2Q_ofNat]
  have ht : (1 : ℚ) / 10 * (2 : ℚ) ^ 56 = 36028797018963968 / 5 := by
    norm_num
  rw [ht]
  have hrhe : roundHalfEven ((36028797018963968 : ℚ) / 5) =
      7205759403792794 := by
    have hge := rhe_gt_half 7205759403792793 ((36028797018963968 : ℚ) / 5)
      (by push_cast; norm_num)
    have hfl : ⌊(36028797018963968 : ℚ) / 5⌋ < 7205759403792794 :=
      Int.floor_lt.mpr (by push_cast; norm_num)
    have hle := rhe_le_floor_add_one ((36028797018963968 : ℚ) / 5)
    omega
  rw [hrhe, pow2Q_negEval]
  push_cast
  norm_num

/-- With counters that convert to float exactly, the modelled drop rate is
the binary32 rounding of the exact ratio. -/
theorem drop_rate_eq (st : Stats) (hd : st.frames_dropped ≤ 16777216)
    (hr : st.frames_received ≤ 16777216) :
    drop_rate st =
      rndQ 24 ((st.frames_dropped : ℚ) / (st.frames_received : ℚ)) := by
  rw [drop_rate, rnd24_natCast _ hd, rnd24_natCast _ hr]

/-- Claim C8 (amended): at a report, "only keyframes observed" is flagged
iff sent > 10 and the delta count is 0, exactly as claimed; but "high drop
rate" is flagged iff received > 10 and dropped/received exceeds the float
threshold 26843545/2^28 (≈ 0.1 − 2.2e-9), not the exact rational 0.1 — in
particular a ratio of exactly 10% is flagged. Neither flag changes any
counter (the report is read-only). -/
theorem anomaly_flags_exact (st : Stats) (hd : st.frames_dropped ≤ 16777216)
    (hr : st.frames_received ≤ 16777216) :
    (only_keyframes_warning st = true ↔
        10 < st.frames_sent ∧ st.pframes_sent = 0) ∧
      (high_drop_warning st = true ↔
        10 < st.frames_received ∧
          (26843545 : ℚ) / 268435456 <
            (st.frames_dropped : ℚ) / (st.frames_received : ℚ)) := by
  constructor
  · simp [only_keyframes_warning]
  · rw [high_drop_warning, drop_rate_eq st hd hr, doubleTenth_eq]
    simp only [Bool.and_eq_true, decide_eq_true_eq]
    have hnn : (0 : ℚ) ≤ (st.frames_dropped : ℚ) / (st.frames_received : ℚ) :=
      div_nonneg (Nat.cast_nonneg _) (Nat.cast_nonneg _)
    constructor
    · rintro ⟨h1, h2⟩
      exact ⟨h1, (rnd24_gt_tenth_iff _ hnn).mp h2⟩
    · rintro ⟨h1, h2⟩
      exact ⟨h1, (rnd24_gt_tenth_iff _ hnn).mpr h2⟩

/-- Claim C8 (witness): the amended statement at a concrete counter state
(received 11, dropped 3). -/
theorem anomaly_flags_exact_witness :
    (only_keyframes_warning ⟨11, 0, 0, 0, 0, 0, 0, 3⟩ = true ↔
        10 < (⟨11, 0, 0, 0, 0, 0, 0, 3⟩ : Stats).frames_sent ∧
          (⟨11, 0, 0, 0, 0, 0, 0, 3⟩ : Stats).pframes_sent = 0) ∧
      (high_drop_warning ⟨11, 0, 0, 0, 0, 0, 0, 3⟩ = true ↔
        10 < (⟨11, 0, 0, 0, 0, 0, 0, 3⟩ : Stats).frames_received ∧
          (26843545 : ℚ) / 268435456 <
            ((⟨11, 0, 0, 0, 0, 0, 0, 3⟩ : Stats).frames_dropped : ℚ) /
              ((⟨11, 0, 0, 0, 0, 0, 0, 3⟩ : Stats).frames_received : ℚ)) :=
  anomaly_flags_exact ⟨11, 0, 0, 0, 0, 0, 0, 3⟩ (by decide) (by decide)

/-- Claim C8 (counterexample): after a reachable 20-frame run with 2
failed sends the drop ratio is exactly 2/20 = 1/10 — not strictly greater
than 0.1 — yet the code raises the high-drop-rate flag, because the
binary32 quotient 2/20 rounds above the binary64 constant 0.1; the
claimed iff with the exact rational condition is false here. -/
theorem drop_flag_at_exact_tenth :
    (run_loop startState cexTrace).stats.frames_received = 20 ∧
      (run_loop startState cexTrace).stats.frames_dropped = 2 ∧
      high_drop_warning (run_loop startState cexTrace).stats = true ∧
      ¬((1 : ℚ) / 10 <
        ((run_loop startState cexTrace).stats.frames_dropped : ℚ) /
          ((run_loop startState cexTrace).stats.frames_received : ℚ)) := by
  have h20 : (run_loop startState cexTrace).stats.frames_received = 20 := by
    decide
  have h2 : (run_loop startState cexTrace).stats.frames_dropped = 2 := by
    decide
  have hdr : drop_rate (run_loop startState cexTrace).stats =
      (13421773 : ℚ) / 134217728 := by
    rw [drop_rate, h20, h2, rnd24_natCast 2 (by norm_num),
      rnd24_natCast 20 (by norm_num),
      show ((2 : ℕ) : ℚ) / ((20 : ℕ) : ℚ) = (1 : ℚ) / 10 by push_cast; norm_num]
    exact rnd24_tenth
  refine ⟨h20, h2, ?_, ?_⟩
  · rw [high_drop_warning, hdr, h20, doubleTenth_eq]
    simp only [Bool.and_eq_true, decide_eq_true_eq]
    norm_num
  · rw [h20, h2]
    push_cast
    norm_num

/-! ### Counter wraparound (claim C7) -/

/-- On the acceptance path the compressed handler forwards through the
send path with the span after the header and the container keyframe
bit. -/
theorem handle_compressed_accept (g : StreamGeometry) (st : Stats)
    (fr : NDIVideoFrame) (r : Int)
    (h1 : fr.fourCC = NDIlib_compressed_FourCC_type_H264)
    (h2 : packetFourCC fr.data = NDIlib_compressed_FourCC_type_H264)
    (h3 : packetHeaderSize ≤ fr.data.length) :
    handle_compressed_frame g st fr r =
      (.forwarded (send_compressed_to_omt g st
          (fr.data.drop packetHeaderSize)
          ((packetFlags fr.data &&& NDIlib_compressed_packet_flags_keyframe)
            != 0) r),
        (send_compressed_to_omt g st (fr.data.drop packetHeaderSize)
          ((packetFlags fr.data &&& NDIlib_compressed_packet_flags_keyframe)
            != 0) r).stats) := by
  have hne : fr.data.length ≠ 0 := by
    simp only [packetHeaderSize] at h3
    omega
  have hnl : ¬fr.data.length < packetHeaderSize := not_lt.mpr h3
  unfold handle_compressed_frame
  rw [if_neg hne, if_pos h1, if_neg hnl, if_neg (not_not_intro h2)]

/-- The payload of the 2^30-byte frame. -/
theorem frBig_len : frBig.data.length = 1073741868 := by
  show ((hdrBytes 1) ++ List.replicate 1073741824 0).length = 1073741868
  rw [List.length_append, List.length_replicate]
  decide

/-- Reads inside the header of the 2^30-byte frame see the header bytes. -/
theorem frBig_getD (i : Nat) (hi : i < 44) :
    frBig.data.getD i 0 = (hdrBytes 1).getD i 0 := by
  have h44 : (hdrBytes 1).length = 44 := by decide
  show ((hdrBytes 1) ++ List.replicate 1073741824 0).getD i 0 =
    (hdrBytes 1).getD i 0
  rw [List.getD_eq_getElem?_getD, List.getD_eq_getElem?_getD,
    List.getElem?_append_left (by omega)]

/-- The 2^30-byte frame parses as a compressed H.264 keyframe. -/
theorem frBig_header :
    packetFourCC frBig.data = NDIlib_compressed_FourCC_type_H264 ∧
      packetFlags frBig.data = 1 := by
  constructor
  · unfold packetFourCC le32
    rw [frBig_getD 4 (by norm_num), frBig_getD 5 (by norm_num),
      frBig_getD 6 (by norm_num), frBig_getD 7 (by norm_num)]
    decide
  · unfold packetFlags le32
    rw [frBig_getD 32 (by norm_num), frBig_getD 33 (by norm_num),
      frBig_getD 34 (by norm_num), frBig_getD 35 (by norm_num)]
    decide

/-- The encoded span of the 2^30-byte frame is 2^30 bytes long. -/
theorem frBig_dropLen :
    (frBig.data.drop packetHeaderSize).length = 1073741824 := by
  rw [List.length_drop, frBig_len]
  decide

/-- State after a video-event iteration without connection sampling (all
arguments variables, so the reduction is by structure eta only). -/
theorem loop_iteration_video_state (s : ConvState) (fr : NDIVideoFrame)
    (r : Int) :
    (loop_iteration s ⟨.video fr r, none⟩).1 =
      ⟨update_geometry s.geo fr,
        (handle_compressed_frame (update_geometry s.geo fr)
          { s.stats with frames_received := s.stats.frames_received + 1 }
          fr r).2⟩ := rfl

/-- The loop processes a trace one event at a time. -/
theorem run_loop_cons (s : ConvState) (inp : LoopInput)
    (rest : List LoopInput) :
    run_loop s (inp :: rest) = run_loop (loop_iteration s inp).1 rest := rfl

/-- The loop leaves the state unchanged on the empty trace. -/
theorem run_loop_nil (s : ConvState) : run_loop s [] = s := rfl

/-- One loop iteration on the 2^30-byte frame (send succeeding) adds 2^30
to the bytes-sent total. -/
theorem frBig_step_bytes (s : ConvState) :
    (loop_iteration s ⟨.video frBig 1, none⟩).1.stats.bytes_sent =
      s.stats.bytes_sent + 1073741824 := by
  have h3 : packetHeaderSize ≤ frBig.data.length := by
    rw [frBig_len]
    decide
  have hstats : (handle_compressed_frame (update_geometry s.geo frBig)
      { s.stats with frames_received := s.stats.frames_received + 1 }
      frBig 1).2 =
      (send_compressed_to_omt (update_geometry s.geo frBig)
        { s.stats with frames_received := s.stats.frames_received + 1 }
        (frBig.data.drop packetHeaderSize)
        ((packetFlags frBig.data &&& NDIlib_compressed_packet_flags_keyframe)
          != 0) 1).stats := by
    rw [handle_compressed_accept _ _ _ _ rfl frBig_header.1 h3]
  rw [loop_iteration_video_state, hstats, send_stats_spec]
  simp [frBig_dropLen]
  rw [frBig_len]
  decide

/-- Claim C7 (code bug): the counters are stored in 32-bit
`std::atomic<int>` cells whose increments wrap modulo 2^32, so the stored
values are NOT monotone over the entire run — after two successfully sent
frames of 2^30 payload bytes each, the stored bytes-sent counter wraps
from 2^30 (after the first frame) to −2^31 (after the second): it
decreases.  The counting discipline itself never resets or decrements
(the unbounded totals are monotone, see `counters_monotone_and_rate`);
the slip is the 32-bit width of the byte counters, which a realistic run
exceeds within ~2 GiB moved. -/
theorem int32_bytes_counter_wraps :
    (run_loop startState [⟨.video frBig 1, none⟩]).stats.bytes_sent =
        1073741824 ∧
      (run_loop startState wrapTrace).stats.bytes_sent = 2147483648 ∧
      int32val
          (run_loop startState [⟨.video frBig 1, none⟩]).stats.bytes_sent =
        1073741824 ∧
      int32val (run_loop startState wrapTrace).stats.bytes_sent =
        -2147483648 ∧
      int32val (run_loop startState wrapTrace).stats.bytes_sent <
        int32val
          (run_loop startState [⟨.video frBig 1, none⟩]).stats.bytes_sent := by
  have hw : wrapTrace =
      [⟨.video frBig 1, none⟩, ⟨.video frBig 1, none⟩] := rfl
  have e1 : (run_loop startState
      [(⟨.video frBig 1, none⟩ : LoopInput)]).stats.bytes_sent =
      1073741824 := by
    rw [run_loop_cons, run_loop_nil, frBig_step_bytes]
    decide
  have e2 : (run_loop startState wrapTrace).stats.bytes_sent =
      2147483648 := by
    rw [hw, run_loop_cons, run_loop_cons, run_loop_nil, frBig_step_bytes,
      frBig_step_bytes]
    decide
  refine ⟨e1, e2, ?_, ?_, ?_⟩
  · rw [e1]
    decide
  · rw [e2]
    decide
  · rw [e1, e2]
    decide

end NdiOmt
